import Mathlib

/-!
bsseq: `check_M_and_Cov`

A shallow embedding of `src/check_M_and_Cov.cpp`, the validity check of the
pair of matrices `M` (methylated counts) and `Cov` (coverage), and theorems
about it.

What the C++ function takes from outside the file is kept visible:

* `double` values are the type `Dbl` (R's `NA_real_`, any other NaN, the two
  infinities, and the finite values with their exact numeric value);
  `<`, `>` and `R_FINITE` follow IEEE 754 and R's headers.
* `isNA` (declared in `utils.h`) is a parameter of every definition that calls
  it.
* `tatami::parallelize` is a parameter that gives, for a number of tasks and
  of threads, the calls `fun(tid, start, length)` it makes.
* `BEGIN_RCPP` / `END_RCPP` (Rcpp) is a parameter that says what becomes of a
  C++ exception thrown in the body.
* The operations of the body that can throw after the conversion of the
  worker count (allocations, launch of the calls, extraction) are the points
  of `FaultPoint`; `check_M_and_Cov_throwing` takes as a parameter which of
  them throw, and is `check_M_and_Cov` when none does.

The indexed accesses of the scan (columns fetched, elements read, slots
assigned) are written down by `check_M_and_Cov_accesses`, a second reading of
the same lines, which finds the same messages (`workerAccesses_snd`).
-/

namespace BSseq

/-! ## Values -/

/-- A `double` as the function sees it. `na` is R's `NA_real_` (a NaN with a
reserved payload), `nan` any other NaN, `fin q` the finite double of value `q`. -/
inductive Dbl where
  | na
  | nan
  | pinf
  | ninf
  | fin (q : ℚ)
  deriving DecidableEq

namespace Dbl

/-- IEEE 754 `a < b` on doubles: false as soon as one side is a NaN. -/
def lt : Dbl → Dbl → Bool
  | fin a, fin b => decide (a < b)
  | fin _, pinf => true
  | ninf, fin _ => true
  | ninf, pinf => true
  | _, _ => false

/-- IEEE 754 `a > b` on doubles. -/
def gt (a b : Dbl) : Bool := lt b a

/-- IEEE 754 `a <= b` on doubles: false as soon as one side is a NaN. -/
def le : Dbl → Dbl → Bool
  | fin a, fin b => decide (a ≤ b)
  | fin _, pinf => true
  | ninf, fin _ => true
  | ninf, pinf => true
  | pinf, pinf => true
  | ninf, ninf => true
  | _, _ => false

/-- C's `isnan` (R's `ISNAN`): true of `NA_real_` and of every other NaN. -/
def isNaN : Dbl → Bool
  | na => true
  | nan => true
  | _ => false

end Dbl

/-- R's `R_FINITE(x)`: false of NaNs (so of `NA_real_`) and of both infinities. -/
def R_FINITE : Dbl → Bool
  | Dbl.fin _ => true
  | _ => false

/-- The literal `0` of `M_current < 0`, converted to `double`. -/
def zero : Dbl := Dbl.fin 0

/-! ## Matrices and R objects -/

/-- What the function uses of a `tatami::Matrix<double, int>`: its two
dimensions and the value at a row and a column. -/
structure NumericMatrix where
  nrow : Nat
  ncol : Nat
  cell : Nat → Nat → Dbl

/-- The matrix with the value at row `r`, column `c` replaced by `v`. -/
def NumericMatrix.inject (A : NumericMatrix) (r c : Nat) (v : Dbl) : NumericMatrix :=
  NumericMatrix.mk A.nrow A.ncol fun i j => if i = r ∧ j = c then v else A.cell i j

/-- The R objects (`SEXP`) the function may be handed: an external pointer to
a bound numeric matrix; a vector that `Rcpp::IntegerVector` accepts, given by
the integers it holds once converted; any other object (a character string,
say), which is neither. -/
inductive SEXP where
  | matrix (m : NumericMatrix)
  | integer (v : List Int)
  | other

/-- The operations of the body, besides the bindings of lines 16-19 and the
conversion of line 35, that can throw: the construction of the vector
`errors` (line 44), the launch of the calls by `tatami::parallelize` (lines 45
and 80), the two buffers of the call of worker `tid` (line 46), its extractor
on `M` (`ofCov` false) or on `Cov` (`ofCov` true) (lines 47-48), and the fetch
of column `c` of `M` or of `Cov` (lines 51-52). -/
inductive FaultPoint where
  | errors
  | parallelize
  | buffers (tid : Nat)
  | extractor (ofCov : Bool) (tid : Nat)
  | fetch (ofCov : Bool) (c : Nat)
  deriving DecidableEq

/-- A C++ exception thrown in the body: Rcpp's `not_compatible`, from a
binding or the conversion, or the exception raised by the operation `p`. -/
inductive Fault where
  | not_compatible
  | raised (p : FaultPoint)
  deriving DecidableEq

/-- What the caller observes: a returned value (`none` is `R_NilValue`,
`some s` the character vector holding `s`), or an R error being signalled, in
which case nothing is returned. -/
inductive Outcome where
  | value (v : Option String)
  | signalled (f : Fault)
  deriving DecidableEq

/-- `Rtatami::BoundNumericPointer x(s)`: succeeds on an external pointer to a
bound matrix, throws on any other object. -/
def BoundNumericPointer : SEXP → Except Fault NumericMatrix
  | SEXP.matrix m => Except.ok m
  | _ => Except.error Fault.not_compatible

/-- `Rcpp::IntegerVector x(s)`: the integers of a vector it accepts, an
exception for any other object. -/
def IntegerVector : SEXP → Except Fault (List Int)
  | SEXP.integer v => Except.ok v
  | _ => Except.error Fault.not_compatible

/-- One call `fun(tid, start, length)` made by `tatami::parallelize`. -/
structure Block where
  tid : Nat
  start : Nat
  length : Nat
  deriving DecidableEq

/-! ## Messages -/

def msgRows : String := "'M' and 'Cov' must have the same number of rows."
def msgCols : String := "'M' and 'Cov' must have the same number of columns."
def msgThreads : String := "Number of threads should be a positive integer."
def msgMNA : String := "'M' must not contain NAs."
def msgCovNA : String := "'Cov' must not contain NAs."
def msgMNeg : String := "'M' must not contain negative values."
def msgMGtCov : String :=
  "All values of 'M' must be less than or equal to the corresponding value of 'Cov'."
def msgCovFinite : String := "All values of 'Cov' must be finite."

/-! ## The function -/

/-- Lines 58-77: the five tests on one pair of values, in the order of the
source; `some msg` is the message assigned to `errors[tid]` before `return`. -/
def checkCell (isNA : Dbl → Bool) (M_current Cov_current : Dbl) : Option String :=
  if isNA M_current then some msgMNA
  else if isNA Cov_current then some msgCovNA
  else if Dbl.lt M_current zero then some msgMNeg
  else if Dbl.gt M_current Cov_current then some msgMGtCov
  else if !R_FINITE Cov_current then some msgCovFinite
  else none

/-- Lines 54-78: the loop over the rows `0 .. M_nrow - 1` of one fetched
column, left at the first test that fires. -/
def scanColumn (isNA : Dbl → Bool) (M_nrow : Nat) (M_ptr Cov_ptr : Nat → Dbl) :
    Option String :=
  (List.range M_nrow).findSome? fun r => checkCell isNA (M_ptr r) (Cov_ptr r)

/-- Lines 45-80: the lambda given to `tatami::parallelize`, for the columns
`start .. start + length - 1`; `some msg` when it assigns `msg` to its slot. -/
def worker (isNA : Dbl → Bool) (M_bm Cov_bm : NumericMatrix) (M_nrow start length : Nat) :
    Option String :=
  (List.range' start length).findSome? fun c =>
    scanColumn isNA M_nrow (fun r => M_bm.cell r c) (fun r => Cov_bm.cell r c)

/-- The effect of one call of the lambda on the vector `errors`. -/
def runBlock (isNA : Dbl → Bool) (M_bm Cov_bm : NumericMatrix) (M_nrow : Nat)
    (errors : List String) (b : Block) : List String :=
  match worker isNA M_bm Cov_bm M_nrow b.start b.length with
  | some msg => errors.set b.tid msg
  | none => errors

/-- The parallel phase: every call made by `tatami::parallelize` has run. The
calls read the matrices only and each writes one slot, so they are run one
after the other, in the order of the list. -/
def runWorkers (isNA : Dbl → Bool) (M_bm Cov_bm : NumericMatrix) (M_nrow : Nat)
    (blocks : List Block) (errors : List String) : List String :=
  blocks.foldl (runBlock isNA M_bm Cov_bm M_nrow) errors

/-- Lines 82-88: the first non-empty message of `errors`, if any. -/
def firstError (errors : List String) : Option String :=
  errors.find? fun msg => !(msg == "")

/-- Lines 16-88: the body between `BEGIN_RCPP` and `END_RCPP`, on a run in
which no allocation, launch or extraction throws; the exceptions of the
bindings and of the conversion are here, `check_M_and_Cov_body_throwing` has
the others as well. -/
def check_M_and_Cov_body (isNA : Dbl → Bool) (parallelize : Nat → Nat → List Block)
    (M Cov nt : SEXP) : Except Fault (Option String) :=
  match BoundNumericPointer M with
  | Except.error e => Except.error e
  | Except.ok M_bm =>
    match BoundNumericPointer Cov with
    | Except.error e => Except.error e
    | Except.ok Cov_bm =>
      if M_bm.nrow ≠ Cov_bm.nrow then Except.ok (some msgRows)
      else if M_bm.ncol ≠ Cov_bm.ncol then Except.ok (some msgCols)
      else
        match IntegerVector nt with
        | Except.error e => Except.error e
        | Except.ok raw_nt =>
          if raw_nt.length ≠ 1 ∨ raw_nt.headD 0 ≤ 0 then Except.ok (some msgThreads)
          else
            let nthreads := (raw_nt.headD 0).toNat
            let errors := List.replicate nthreads ""
            Except.ok (firstError
              (runWorkers isNA M_bm Cov_bm M_bm.nrow (parallelize M_bm.ncol nthreads) errors))

/-- Lines 13-90: the function. `END_RCPP` receives the exception thrown in
the body, if one was. -/
def check_M_and_Cov (END_RCPP : Fault → Outcome) (isNA : Dbl → Bool)
    (parallelize : Nat → Nat → List Block) (M Cov nt : SEXP) : Outcome :=
  match check_M_and_Cov_body isNA parallelize M Cov nt with
  | Except.ok v => Outcome.value v
  | Except.error e => END_RCPP e

/-- Rcpp's `END_RCPP`: the exception caught is turned into an R condition
and `stop()` is called on it, so an R error is signalled to the caller. This
is the "throwing an error" that the note of lines 10-11 sets against
returning a character vector. -/
def Rcpp_END_RCPP (e : Fault) : Outcome := Outcome.signalled e

/-- Lines 50-79 when a fetch may throw: the loop over the columns still to
visit. `throws p` says whether the operation `p` throws when it is reached. -/
def columnsThrowing (throws : FaultPoint → Bool) (isNA : Dbl → Bool)
    (M_bm Cov_bm : NumericMatrix) (M_nrow : Nat) : List Nat → Except Fault (Option String)
  | [] => Except.ok none
  | c :: cs =>
    if throws (FaultPoint.fetch false c) then
      Except.error (Fault.raised (FaultPoint.fetch false c))
    else if throws (FaultPoint.fetch true c) then
      Except.error (Fault.raised (FaultPoint.fetch true c))
    else
      match scanColumn isNA M_nrow (fun r => M_bm.cell r c) (fun r => Cov_bm.cell r c) with
      | some msg => Except.ok (some msg)
      | none => columnsThrowing throws isNA M_bm Cov_bm M_nrow cs

/-- Lines 45-80 when the buffers, the extractors or a fetch may throw: one
call of the lambda. -/
def workerThrowing (throws : FaultPoint → Bool) (isNA : Dbl → Bool)
    (M_bm Cov_bm : NumericMatrix) (M_nrow : Nat) (b : Block) : Except Fault (Option String) :=
  if throws (FaultPoint.buffers b.tid) then
    Except.error (Fault.raised (FaultPoint.buffers b.tid))
  else if throws (FaultPoint.extractor false b.tid) then
    Except.error (Fault.raised (FaultPoint.extractor false b.tid))
  else if throws (FaultPoint.extractor true b.tid) then
    Except.error (Fault.raised (FaultPoint.extractor true b.tid))
  else columnsThrowing throws isNA M_bm Cov_bm M_nrow (List.range' b.start b.length)

/-- The parallel phase when a call may throw: an exception of a call leaves
`tatami::parallelize`, the first one in the order of the list; otherwise the
vector of messages is the one of `runWorkers`. -/
def runWorkersThrowing (throws : FaultPoint → Bool) (isNA : Dbl → Bool)
    (M_bm Cov_bm : NumericMatrix) (M_nrow : Nat) :
    List Block → List String → Except Fault (List String)
  | [], errors => Except.ok errors
  | b :: bs, errors =>
    match workerThrowing throws isNA M_bm Cov_bm M_nrow b with
    | Except.error e => Except.error e
    | Except.ok (some msg) =>
      runWorkersThrowing throws isNA M_bm Cov_bm M_nrow bs (errors.set b.tid msg)
    | Except.ok none => runWorkersThrowing throws isNA M_bm Cov_bm M_nrow bs errors

/-- Lines 16-88 with every exception of the body: those of the bindings and
of the conversion, and those of the operations of `FaultPoint`. -/
def check_M_and_Cov_body_throwing (throws : FaultPoint → Bool) (isNA : Dbl → Bool)
    (parallelize : Nat → Nat → List Block) (M Cov nt : SEXP) :
    Except Fault (Option String) :=
  match BoundNumericPointer M with
  | Except.error e => Except.error e
  | Except.ok M_bm =>
    match BoundNumericPointer Cov with
    | Except.error e => Except.error e
    | Except.ok Cov_bm =>
      if M_bm.nrow ≠ Cov_bm.nrow then Except.ok (some msgRows)
      else if M_bm.ncol ≠ Cov_bm.ncol then Except.ok (some msgCols)
      else
        match IntegerVector nt with
        | Except.error e => Except.error e
        | Except.ok raw_nt =>
          if raw_nt.length ≠ 1 ∨ raw_nt.headD 0 ≤ 0 then Except.ok (some msgThreads)
          else
            let nthreads := (raw_nt.headD 0).toNat
            if throws FaultPoint.errors then Except.error (Fault.raised FaultPoint.errors)
            else if throws FaultPoint.parallelize then
              Except.error (Fault.raised FaultPoint.parallelize)
            else
              match runWorkersThrowing throws isNA M_bm Cov_bm M_bm.nrow
                  (parallelize M_bm.ncol nthreads) (List.replicate nthreads "") with
              | Except.error e => Except.error e
              | Except.ok errors => Except.ok (firstError errors)

/-- Lines 13-90 with every exception of the body: the function. -/
def check_M_and_Cov_throwing (END_RCPP : Fault → Outcome) (throws : FaultPoint → Bool)
    (isNA : Dbl → Bool) (parallelize : Nat → Nat → List Block) (M Cov nt : SEXP) : Outcome :=
  match check_M_and_Cov_body_throwing throws isNA parallelize M Cov nt with
  | Except.ok v => Outcome.value v
  | Except.error e => END_RCPP e

/-! ## The properties the statements are about -/

/-- The constraint on one cell, in the words of the comment of lines 42-43:
neither value is missing, `0 <= M <= Cov`, and `Cov` is finite. -/
def CellValid (isNA : Dbl → Bool) (m c : Dbl) : Prop :=
  isNA m = false ∧ isNA c = false ∧ Dbl.le zero m = true ∧ Dbl.le m c = true ∧
    R_FINITE c = true

instance (isNA : Dbl → Bool) (m c : Dbl) : Decidable (CellValid isNA m c) :=
  inferInstanceAs (Decidable (isNA m = false ∧ isNA c = false ∧ Dbl.le zero m = true ∧
    Dbl.le m c = true ∧ R_FINITE c = true))

/-- Every cell of the pair satisfies the constraint. -/
def ValidPair (isNA : Dbl → Bool) (M Cov : NumericMatrix) : Prop :=
  ∀ r, r < M.nrow → ∀ c, c < M.ncol → CellValid isNA (M.cell r c) (Cov.cell r c)

/-- No block reaches beyond the last column. -/
def Within (blocks : List Block) (ncol : Nat) : Prop :=
  ∀ b ∈ blocks, b.start + b.length ≤ ncol

/-- Every column of `[0, ncol)` lies in some block. -/
def Covers (blocks : List Block) (ncol : Nat) : Prop :=
  ∀ c, c < ncol → ∃ b ∈ blocks, b.start ≤ c ∧ c < b.start + b.length

/-- Every block writes to a slot of a vector of `nthreads` messages. -/
def SlotsIn (blocks : List Block) (nthreads : Nat) : Prop :=
  ∀ b ∈ blocks, b.tid < nthreads

instance (blocks : List Block) (ncol : Nat) : Decidable (Within blocks ncol) :=
  inferInstanceAs (Decidable (∀ b ∈ blocks, b.start + b.length ≤ ncol))

instance (blocks : List Block) (ncol : Nat) : Decidable (Covers blocks ncol) :=
  inferInstanceAs (Decidable (∀ c, c < ncol → ∃ b ∈ blocks, b.start ≤ c ∧ c < b.start + b.length))

instance (blocks : List Block) (nthreads : Nat) : Decidable (SlotsIn blocks nthreads) :=
  inferInstanceAs (Decidable (∀ b ∈ blocks, b.tid < nthreads))

/-- A split of the tasks into at most `threads` blocks of equal size (the
last one shorter), block `t` going to worker `t`: the partition used in the
worked examples below. -/
def evenSplit (tasks threads : Nat) : List Block :=
  let per := (tasks + threads - 1) / threads
  (List.range threads).filterMap fun t =>
    if t * per < tasks then some ⟨t, t * per, min per (tasks - t * per)⟩ else none

/-- The single-block split: worker 0 takes every task. -/
def oneBlock (tasks _threads : Nat) : List Block := [⟨0, 0, tasks⟩]

/-- A matrix given by its rows, for the worked examples. -/
def ofRows (nrow ncol : Nat) (rows : List (List Dbl)) : NumericMatrix :=
  NumericMatrix.mk nrow ncol fun r c => (rows.getD r []).getD c Dbl.nan

instance (isNA : Dbl → Bool) (M Cov : NumericMatrix) : Decidable (ValidPair isNA M Cov) :=
  inferInstanceAs (Decidable (∀ r, r < M.nrow → ∀ c, c < M.ncol →
    CellValid isNA (M.cell r c) (Cov.cell r c)))

/-- The calls made by `tatami::parallelize` for `ncol` columns and `nthreads`
threads split the columns: the blocks stay inside `[0, ncol)`, every column is
in a block, and every worker index is a slot of `errors`. -/
def IsSplit (blocks : List Block) (ncol nthreads : Nat) : Prop :=
  Within blocks ncol ∧ Covers blocks ncol ∧ SlotsIn blocks nthreads

instance (blocks : List Block) (ncol nthreads : Nat) : Decidable (IsSplit blocks ncol nthreads) :=
  inferInstanceAs (Decidable (Within blocks ncol ∧ Covers blocks ncol ∧ SlotsIn blocks nthreads))

/-- A valid pair of 2 x 3 matrices, for the worked examples: the counts. -/
def exM : NumericMatrix :=
  ofRows 2 3 [[Dbl.fin 1, Dbl.fin 0, Dbl.fin 2], [Dbl.fin 0, Dbl.fin 3, Dbl.fin 1]]

/-- A valid pair of 2 x 3 matrices, for the worked examples: the coverage. -/
def exCov : NumericMatrix :=
  ofRows 2 3 [[Dbl.fin 1, Dbl.fin 4, Dbl.fin 2], [Dbl.fin 5, Dbl.fin 3, Dbl.fin 6]]

/-- A 3 x 2 matrix of ones, of a shape different from `exM` in both dimensions. -/
def exTall : NumericMatrix := NumericMatrix.mk 3 2 fun _ _ => Dbl.fin 1

/-- A 2 x 2 matrix of ones, with the rows of `exM` but not its columns. -/
def exSquare : NumericMatrix := NumericMatrix.mk 2 2 fun _ _ => Dbl.fin 1

/-- The five checks of one cell with their messages, in the order in which
the specification lists them: `M` missing, `Cov` missing, `M < 0`,
`M > Cov`, `Cov` not finite. -/
def checksInOrder (isNA : Dbl → Bool) (m c : Dbl) : List (Bool × String) :=
  [(isNA m, msgMNA), (isNA c, msgCovNA), (Dbl.lt m zero, msgMNeg),
   (Dbl.gt m c, msgMGtCov), (!R_FINITE c, msgCovFinite)]

/-- The message of the first check of `checksInOrder` that applies, if one
does. -/
def firstApplicable (isNA : Dbl → Bool) (m c : Dbl) : Option String :=
  ((checksInOrder isNA m c).find? fun t => t.1).map fun t => t.2

/-- Column-major order: the cell at column `c1`, row `r1` comes before the
cell at column `c2`, row `r2`. -/
def Before (c1 r1 c2 r2 : Nat) : Prop := c1 < c2 ∨ (c1 = c2 ∧ r1 < r2)

instance (c1 r1 c2 r2 : Nat) : Decidable (Before c1 r1 c2 r2) :=
  inferInstanceAs (Decidable (c1 < c2 ∨ (c1 = c2 ∧ r1 < r2)))

/-- The cell at column `c`, row `r` is the first cell of the block
`[start, start + len)`, in column-major order, at which a test fires, and the
test that fires there gives `msg`. -/
def FirstFiring (isNA : Dbl → Bool) (M Cov : NumericMatrix) (nrow start len : Nat)
    (c r : Nat) (msg : String) : Prop :=
  start ≤ c ∧ c < start + len ∧ r < nrow ∧
    checkCell isNA (M.cell r c) (Cov.cell r c) = some msg ∧
    ∀ c1, start ≤ c1 → c1 ≤ c → ∀ r1, r1 < nrow → Before c1 r1 c r →
      checkCell isNA (M.cell r1 c1) (Cov.cell r1 c1) = none

instance (isNA : Dbl → Bool) (M Cov : NumericMatrix) (nrow start len c r : Nat) (msg : String) :
    Decidable (FirstFiring isNA M Cov nrow start len c r msg) :=
  inferInstanceAs (Decidable (start ≤ c ∧ c < start + len ∧ r < nrow ∧
    checkCell isNA (M.cell r c) (Cov.cell r c) = some msg ∧
    ∀ c1, start ≤ c1 → c1 ≤ c → ∀ r1, r1 < nrow → Before c1 r1 c r →
      checkCell isNA (M.cell r1 c1) (Cov.cell r1 c1) = none))

/-- Counts with three violations, for the worked examples: a negative count
at row 0 of column 1, a missing one below it, and a count above the
coverage `exCov` in column 2. -/
def exBadM : NumericMatrix :=
  ofRows 2 3 [[Dbl.fin 1, Dbl.fin (-1), Dbl.fin 2], [Dbl.fin 0, Dbl.na, Dbl.fin 7]]

/-- The assignments `errors[tid] = msg` made during the parallel phase, as
pairs of a slot and a message, in the order of the calls: a call of the lambda
makes one assignment, after which it returns, or none. -/
def slotWrites (isNA : Dbl → Bool) (M_bm Cov_bm : NumericMatrix) (M_nrow : Nat)
    (blocks : List Block) : List (Nat × String) :=
  blocks.filterMap fun b =>
    (worker isNA M_bm Cov_bm M_nrow b.start b.length).map fun msg => (b.tid, msg)

/-- The block `b` contains a cell, among the rows `0 .. nrow - 1`, that
violates the constraint `CellValid`. -/
def blockHasViolation (isNA : Dbl → Bool) (M Cov : NumericMatrix) (nrow : Nat) (b : Block) :
    Bool :=
  (List.range' b.start b.length).any fun c =>
    (List.range nrow).any fun r => !decide (CellValid isNA (M.cell r c) (Cov.cell r c))

/-- Each call has a worker index of its own, and each index is a slot of a
vector of `nthreads` messages. -/
def OwnSlots (blocks : List Block) (nthreads : Nat) : Prop :=
  (blocks.map Block.tid).Nodup ∧ SlotsIn blocks nthreads

instance (blocks : List Block) (nthreads : Nat) : Decidable (OwnSlots blocks nthreads) :=
  inferInstanceAs (Decidable ((blocks.map Block.tid).Nodup ∧ SlotsIn blocks nthreads))

/-- The cells of a matrix of `nrow` rows and `ncol` columns, as pairs of a
row and a column, in column-major order. -/
def cellsColumnMajor (nrow ncol : Nat) : List (Nat × Nat) :=
  (List.range ncol).flatMap fun c => (List.range nrow).map fun r => (r, c)

/-- The sequential result in words: the message of the first applicable check
at the first cell, in column-major order of the whole matrix, at which a
check applies; nothing when there is no such cell. -/
def sequentialResult (isNA : Dbl → Bool) (M Cov : NumericMatrix) : Option String :=
  (cellsColumnMajor M.nrow M.ncol).findSome? fun rc =>
    firstApplicable isNA (M.cell rc.1 rc.2) (Cov.cell rc.1 rc.2)

/-- The blocks split the columns, no two calls share a worker index, and the
worker indices follow the columns: a block with a smaller worker index ends
before the block with the larger one starts. -/
def OrderedSplit (blocks : List Block) (ncol nthreads : Nat) : Prop :=
  IsSplit blocks ncol nthreads ∧
    (∀ b ∈ blocks, ∀ b1 ∈ blocks, b.tid = b1.tid → b = b1) ∧
    (∀ b ∈ blocks, ∀ b1 ∈ blocks, b.tid < b1.tid → b.start + b.length ≤ b1.start)

instance (blocks : List Block) (ncol nthreads : Nat) :
    Decidable (OrderedSplit blocks ncol nthreads) :=
  inferInstanceAs (Decidable (IsSplit blocks ncol nthreads ∧
    (∀ b ∈ blocks, ∀ b1 ∈ blocks, b.tid = b1.tid → b = b1) ∧
    (∀ b ∈ blocks, ∀ b1 ∈ blocks, b.tid < b1.tid → b.start + b.length ≤ b1.start)))

/-- A split of three columns whose worker indices go against the columns:
worker 1 has the columns 0 and 1, worker 0 the column 2. -/
def backwardSplit (_tasks _threads : Nat) : List Block := [⟨1, 0, 2⟩, ⟨0, 2, 1⟩]

/-- One indexed access made by the scan: the extractor of `M` (`ofCov` false)
or of `Cov` (`ofCov` true) delivers column `c` (lines 51-52); element `r` of
the column delivered is read, `M_ptr[r]` or `Cov_ptr[r]` (lines 55-56); a
message is assigned to `errors[tid]`. -/
inductive Access where
  | fetch (ofCov : Bool) (c : Nat)
  | read (ofCov : Bool) (r : Nat)
  | write (tid : Nat)
  deriving DecidableEq

/-- The access stays inside the object it indexes: a column of its matrix, a
row of the column of its matrix, a slot of the vector of `nthreads` messages. -/
def Access.inBounds (M_nrow M_ncol Cov_nrow Cov_ncol nthreads : Nat) : Access → Prop
  | Access.fetch false c => c < M_ncol
  | Access.fetch true c => c < Cov_ncol
  | Access.read false r => r < M_nrow
  | Access.read true r => r < Cov_nrow
  | Access.write tid => tid < nthreads

instance (M_nrow M_ncol Cov_nrow Cov_ncol nthreads : Nat) (a : Access) :
    Decidable (a.inBounds M_nrow M_ncol Cov_nrow Cov_ncol nthreads) := by
  cases a with
  | fetch ofCov c => cases ofCov <;> exact inferInstanceAs (Decidable (_ < _))
  | read ofCov r => cases ofCov <;> exact inferInstanceAs (Decidable (_ < _))
  | write tid => exact inferInstanceAs (Decidable (_ < _))

/-- Lines 54-78 with the accesses written down: the loop over the rows still
to visit, both elements being read before the tests, left at the first test
that fires. The result is the accesses made and the message found, if any. -/
def rowsAccesses (isNA : Dbl → Bool) (M_ptr Cov_ptr : Nat → Dbl) :
    List Nat → List Access × Option String
  | [] => ([], none)
  | r :: rs =>
    match checkCell isNA (M_ptr r) (Cov_ptr r) with
    | some msg => ([Access.read false r, Access.read true r], some msg)
    | none =>
      (Access.read false r :: Access.read true r :: (rowsAccesses isNA M_ptr Cov_ptr rs).1,
        (rowsAccesses isNA M_ptr Cov_ptr rs).2)

/-- Lines 50-79 with the accesses written down: the loop over the columns
still to visit; each column is fetched from both matrices and scanned, and a
message found is assigned to `errors[tid]`, which ends the call. -/
def columnsAccesses (isNA : Dbl → Bool) (M_bm Cov_bm : NumericMatrix) (M_nrow tid : Nat) :
    List Nat → List Access × Option String
  | [] => ([], none)
  | c :: cs =>
    match rowsAccesses isNA (fun r => M_bm.cell r c) (fun r => Cov_bm.cell r c)
        (List.range M_nrow) with
    | (acc, some msg) =>
      (Access.fetch false c :: Access.fetch true c :: (acc ++ [Access.write tid]), some msg)
    | (acc, none) =>
      (Access.fetch false c :: Access.fetch true c ::
          (acc ++ (columnsAccesses isNA M_bm Cov_bm M_nrow tid cs).1),
        (columnsAccesses isNA M_bm Cov_bm M_nrow tid cs).2)

/-- The accesses of one call `fun(tid, start, length)` of the lambda, with
the message it records. -/
def workerAccesses (isNA : Dbl → Bool) (M_bm Cov_bm : NumericMatrix) (M_nrow : Nat)
    (b : Block) : List Access × Option String :=
  columnsAccesses isNA M_bm Cov_bm M_nrow b.tid (List.range' b.start b.length)

/-- Lines 16-80 with the accesses written down: `none` when the function
returns, or throws, before the scan (lines 16-39), otherwise the accesses
made by all the calls of the lambda. -/
def check_M_and_Cov_accesses (isNA : Dbl → Bool) (parallelize : Nat → Nat → List Block)
    (M Cov nt : SEXP) : Option (List Access) :=
  match BoundNumericPointer M with
  | Except.error _ => none
  | Except.ok M_bm =>
    match BoundNumericPointer Cov with
    | Except.error _ => none
    | Except.ok Cov_bm =>
      if M_bm.nrow ≠ Cov_bm.nrow then none
      else if M_bm.ncol ≠ Cov_bm.ncol then none
      else
        match IntegerVector nt with
        | Except.error _ => none
        | Except.ok raw_nt =>
          if raw_nt.length ≠ 1 ∨ raw_nt.headD 0 ≤ 0 then none
          else
            let nthreads := (raw_nt.headD 0).toNat
            some ((parallelize M_bm.ncol nthreads).flatMap fun b =>
              (workerAccesses isNA M_bm Cov_bm M_bm.nrow b).1)

/-! ### The addition of doubles

The sum of two finite doubles is the exact sum rounded to the nearest
binary64 value, ties going to the even significand (IEEE 754). A finite
binary64 value is `m * 2 ^ e` with `m < 2 ^ 53` and `-1074 <= e <= 971`. -/

/-- The base-2 logarithm of `n`, rounded down, by halving at most `fuel`
times. -/
def log2Fuel : Nat → Nat → Nat
  | 0, _ => 0
  | fuel + 1, n => if n < 2 then 0 else log2Fuel fuel (n / 2) + 1

/-- The base-2 logarithm of `n`, rounded down (`Nat.log2`, see
`log2Fuel_eq`). -/
def bitLog2 (n : Nat) : Nat := log2Fuel n n

/-- The integer part of the base-2 logarithm of `n / d`, for `n` and `d`
positive. -/
def floorLog2 (n d : Nat) : Int :=
  let k : Int := (bitLog2 n : Int) - (bitLog2 d : Int)
  if d * 2 ^ k.toNat ≤ n * 2 ^ (-k).toNat then k else k - 1

/-- The integer nearest to `sn / sd`, the even one of the two when `sn / sd`
lies half-way. -/
def roundHalfEven (sn sd : Nat) : Nat :=
  let f := sn / sd
  let rem := sn % sd
  if 2 * rem < sd then f
  else if sd < 2 * rem then f + 1
  else if f % 2 = 0 then f else f + 1

/-- The magnitude `n / d` (`n` and `d` positive) rounded to binary64: the
exponent `e` of the last place is 52 below that of the leading bit, and not
below -1074 (subnormal values); `none` when the rounded value is beyond the
largest finite double. -/
def roundMagnitude (n d : Nat) : Option ℚ :=
  let lg := floorLog2 n d
  let e : Int := max (lg - 52) (-1074)
  let m := roundHalfEven (n * 2 ^ (-e).toNat) (d * 2 ^ e.toNat)
  if 1024 ≤ lg ∨ (2 ^ 53 ≤ m ∧ 971 ≤ e) then none
  else some (mkRat (m * 2 ^ e.toNat : Nat) (2 ^ (-e).toNat))

/-- The rational `q` rounded to a double: to nearest, ties to even, an
infinity on overflow. -/
def roundDouble (q : ℚ) : Dbl :=
  if q.num = 0 then Dbl.fin 0
  else
    match roundMagnitude q.num.natAbs q.den with
    | none => if 0 < q.num then Dbl.pinf else Dbl.ninf
    | some a => Dbl.fin (if 0 < q.num then a else -a)

/-- IEEE 754 `a + b` on doubles. A NaN operand gives a NaN (of two NaN
operands the first is kept, which is what decides between `NA_real_` and
another NaN), opposite infinities give a NaN, and two finite values give
their exact sum rounded. -/
def Dbl.add : Dbl → Dbl → Dbl
  | Dbl.na, _ => Dbl.na
  | Dbl.nan, _ => Dbl.nan
  | _, Dbl.na => Dbl.na
  | _, Dbl.nan => Dbl.nan
  | Dbl.pinf, Dbl.ninf => Dbl.nan
  | Dbl.ninf, Dbl.pinf => Dbl.nan
  | Dbl.pinf, _ => Dbl.pinf
  | _, Dbl.pinf => Dbl.pinf
  | Dbl.ninf, _ => Dbl.ninf
  | _, Dbl.ninf => Dbl.ninf
  | Dbl.fin a, Dbl.fin b => roundDouble (a + b)

/-- A valid pair of 1 x 1 matrices with the coverage `2 ^ 53`: the count. -/
def exBigM : NumericMatrix := ofRows 1 1 [[Dbl.fin 0]]

/-- A valid pair of 1 x 1 matrices with the coverage `2 ^ 53`: the coverage. -/
def exBigCov : NumericMatrix := ofRows 1 1 [[Dbl.fin 9007199254740992]]

/-! ## Lemmas on the tests of one cell -/

theorem checkCell_ne_empty {isNA : Dbl → Bool} {m c : Dbl} {msg : String}
    (h : checkCell isNA m c = some msg) : msg ≠ "" := by
  unfold checkCell at h
  split_ifs at h <;> (cases h; decide)

theorem checkCell_of_valid {isNA : Dbl → Bool} {m c : Dbl} (h : CellValid isNA m c) :
    checkCell isNA m c = none := by
  obtain ⟨h1, h2, h3, h4, h5⟩ := h
  cases m <;> cases c <;>
    simp_all [checkCell, Dbl.le, Dbl.lt, Dbl.gt, R_FINITE, zero]
  rw [if_neg (not_lt.mpr h3), if_neg (not_lt.mpr h4)]

theorem valid_of_checkCell {isNA : Dbl → Bool}
    (hnan : ∀ x, Dbl.isNaN x = true → isNA x = true)
    {m c : Dbl} (h : checkCell isNA m c = none) : CellValid isNA m c := by
  have hna := hnan Dbl.na rfl
  have hnn := hnan Dbl.nan rfl
  unfold checkCell at h
  split_ifs at h with h1 h2 h3 h4 h5
  cases m <;> cases c <;>
    simp_all [CellValid, Dbl.le, Dbl.lt, Dbl.gt, R_FINITE, zero]

/-! ## Lemmas on the scan of a block -/

theorem worker_eq_none_iff {isNA : Dbl → Bool} {M Cov : NumericMatrix} {nrow start len : Nat} :
    worker isNA M Cov nrow start len = none ↔
      ∀ c, start ≤ c → c < start + len → ∀ r, r < nrow →
        checkCell isNA (M.cell r c) (Cov.cell r c) = none := by
  simp only [worker, scanColumn, List.findSome?_eq_none_iff, List.mem_range'_1, List.mem_range]
  constructor
  · intro h c h1 h2 r hr
    exact h c ⟨h1, h2⟩ r hr
  · intro h c hc r hr
    exact h c hc.1 hc.2 r hr

theorem worker_eq_some {isNA : Dbl → Bool} {M Cov : NumericMatrix} {nrow start len : Nat}
    {msg : String} (h : worker isNA M Cov nrow start len = some msg) :
    ∃ c r, start ≤ c ∧ c < start + len ∧ r < nrow ∧
      checkCell isNA (M.cell r c) (Cov.cell r c) = some msg := by
  obtain ⟨c, hc, h1⟩ := List.exists_of_findSome?_eq_some h
  obtain ⟨r, hr, h2⟩ := List.exists_of_findSome?_eq_some h1
  rw [List.mem_range'_1] at hc
  rw [List.mem_range] at hr
  exact ⟨c, r, hc.1, hc.2, hr, h2⟩

theorem worker_ne_empty {isNA : Dbl → Bool} {M Cov : NumericMatrix} {nrow start len : Nat}
    {msg : String} (h : worker isNA M Cov nrow start len = some msg) : msg ≠ "" := by
  obtain ⟨c, r, _, _, _, h1⟩ := worker_eq_some h
  exact checkCell_ne_empty h1

/-! ## Lemmas on the vector of messages -/

theorem runWorkers_cons {isNA : Dbl → Bool} {M Cov : NumericMatrix} {nrow : Nat}
    (b : Block) (bs : List Block) (errs : List String) :
    runWorkers isNA M Cov nrow (b :: bs) errs =
      runWorkers isNA M Cov nrow bs (runBlock isNA M Cov nrow errs b) := rfl

theorem runBlock_length {isNA : Dbl → Bool} {M Cov : NumericMatrix} {nrow : Nat}
    (errs : List String) (b : Block) :
    (runBlock isNA M Cov nrow errs b).length = errs.length := by
  unfold runBlock
  split <;> simp

theorem runWorkers_length {isNA : Dbl → Bool} {M Cov : NumericMatrix} {nrow : Nat}
    (blocks : List Block) (errs : List String) :
    (runWorkers isNA M Cov nrow blocks errs).length = errs.length := by
  induction blocks generalizing errs with
  | nil => rfl
  | cons b bs ih => rw [runWorkers_cons, ih, runBlock_length]

/-- When no worker finds anything the vector is left as it was. -/
theorem runWorkers_of_none {isNA : Dbl → Bool} {M Cov : NumericMatrix} {nrow : Nat}
    (blocks : List Block) (errs : List String)
    (h : ∀ b ∈ blocks, worker isNA M Cov nrow b.start b.length = none) :
    runWorkers isNA M Cov nrow blocks errs = errs := by
  induction blocks generalizing errs with
  | nil => rfl
  | cons b bs ih =>
    rw [runWorkers_cons]
    have hb : runBlock isNA M Cov nrow errs b = errs := by
      unfold runBlock
      rw [h b (List.mem_cons_self b bs)]
    rw [hb]
    exact ih errs fun b' hb' => h b' (List.mem_cons_of_mem b hb')

/-- A property of the initial entries and of every message written holds of
every entry at the end. -/
theorem runWorkers_forall {isNA : Dbl → Bool} {M Cov : NumericMatrix} {nrow : Nat}
    (P : String → Prop) (blocks : List Block) (errs : List String)
    (hw : ∀ b ∈ blocks, ∀ msg, worker isNA M Cov nrow b.start b.length = some msg → P msg)
    (he : ∀ e ∈ errs, P e) :
    ∀ e ∈ runWorkers isNA M Cov nrow blocks errs, P e := by
  induction blocks generalizing errs with
  | nil => exact he
  | cons b bs ih =>
    rw [runWorkers_cons]
    apply ih
    · exact fun b' hb' => hw b' (List.mem_cons_of_mem b hb')
    · intro e hmem
      unfold runBlock at hmem
      split at hmem
      next msg hmsg =>
        rcases List.mem_or_eq_of_mem_set hmem with h1 | h1
        · exact he e h1
        · rw [h1]
          exact hw b (List.mem_cons_self b bs) msg hmsg
      next => exact he e hmem

theorem set_exists_ne_empty (errs : List String) (i : Nat) (msg : String) (hmsg : msg ≠ "")
    (h : ∃ e ∈ errs, e ≠ "") : ∃ e ∈ errs.set i msg, e ≠ "" := by
  obtain ⟨e, hmem, hne⟩ := h
  obtain ⟨j, hj, hje⟩ := List.mem_iff_getElem.mp hmem
  have hj2 : j < (errs.set i msg).length := by simpa using hj
  refine ⟨(errs.set i msg)[j], List.getElem_mem hj2, ?_⟩
  rw [List.getElem_set]
  split
  · exact hmsg
  · rw [hje]
    exact hne

/-- A message once written is never erased: if some worker with a slot of its
own finds something, or an entry was non-empty from the start, an entry is
non-empty at the end. -/
theorem runWorkers_exists_ne_empty {isNA : Dbl → Bool} {M Cov : NumericMatrix} {nrow : Nat}
    (blocks : List Block) (errs : List String)
    (h : (∃ b ∈ blocks, b.tid < errs.length ∧
            worker isNA M Cov nrow b.start b.length ≠ none) ∨ ∃ e ∈ errs, e ≠ "") :
    ∃ e ∈ runWorkers isNA M Cov nrow blocks errs, e ≠ "" := by
  induction blocks generalizing errs with
  | nil =>
    rcases h with ⟨b, hb, _⟩ | h
    · exact absurd hb (List.not_mem_nil b)
    · exact h
  | cons b bs ih =>
    rw [runWorkers_cons]
    apply ih
    rcases h with ⟨b', hb', htid, hw⟩ | h
    · rcases List.mem_cons.mp hb' with heq | hmem
      · right
        subst heq
        unfold runBlock
        cases hmsg : worker isNA M Cov nrow b'.start b'.length with
        | none => exact absurd hmsg hw
        | some msg =>
          exact ⟨msg, List.mem_set errs b'.tid htid msg, worker_ne_empty hmsg⟩
      · left
        exact ⟨b', hmem, by rw [runBlock_length]; exact htid, hw⟩
    · right
      unfold runBlock
      cases hmsg : worker isNA M Cov nrow b.start b.length with
      | none => exact h
      | some msg => exact set_exists_ne_empty errs b.tid msg (worker_ne_empty hmsg) h

theorem firstError_eq_none_iff (errs : List String) :
    firstError errs = none ↔ ∀ e ∈ errs, e = "" := by
  simp [firstError]

theorem firstError_eq_some {errs : List String} {msg : String}
    (h : firstError errs = some msg) : msg ∈ errs ∧ msg ≠ "" := by
  unfold firstError at h
  refine ⟨List.mem_of_find?_eq_some h, ?_⟩
  have := List.find?_some h
  simpa using this

/-- When every entry is empty or equal to `msg`, and one is not empty, the
message reported is `msg`. -/
theorem firstError_of_forall {errs : List String} {msg : String}
    (hall : ∀ e ∈ errs, e = "" ∨ e = msg) (hex : ∃ e ∈ errs, e ≠ "") :
    firstError errs = some msg := by
  cases h : firstError errs with
  | none =>
    obtain ⟨e, hmem, hne⟩ := hex
    exact absurd ((firstError_eq_none_iff errs).mp h e hmem) hne
  | some m =>
    obtain ⟨hmem, hne⟩ := firstError_eq_some h
    rcases hall m hmem with h1 | h1
    · exact absurd h1 hne
    · rw [h1]

/-! ## Lemmas on the whole function -/

/-- On two bound matrices of one shape and a single positive count, the
function returns what the scan of the columns reports. -/
theorem check_M_and_Cov_scan (END_RCPP : Fault → Outcome) (isNA : Dbl → Bool)
    (parallelize : Nat → Nat → List Block) (M Cov : NumericMatrix) (n : Int)
    (hrow : M.nrow = Cov.nrow) (hcol : M.ncol = Cov.ncol) (hn : 1 ≤ n) :
    check_M_and_Cov END_RCPP isNA parallelize (SEXP.matrix M) (SEXP.matrix Cov)
        (SEXP.integer [n]) =
      Outcome.value (firstError (runWorkers isNA M Cov M.nrow
        (parallelize M.ncol n.toNat) (List.replicate n.toNat ""))) := by
  have hn2 : ¬ n ≤ 0 := by omega
  simp [check_M_and_Cov, check_M_and_Cov_body, BoundNumericPointer, IntegerVector, hrow, hcol,
    hn2]

/-- No block inside the matrix finds anything in a pair whose cells all pass
the five tests. -/
theorem scan_of_all_none {isNA : Dbl → Bool} {M Cov : NumericMatrix} {blocks : List Block}
    (k : Nat) (hin : Within blocks M.ncol)
    (hall : ∀ r, r < M.nrow → ∀ c, c < M.ncol →
      checkCell isNA (M.cell r c) (Cov.cell r c) = none) :
    firstError (runWorkers isNA M Cov M.nrow blocks (List.replicate k "")) = none := by
  rw [runWorkers_of_none]
  · rw [firstError_eq_none_iff]
    intro e he
    exact (List.mem_replicate.mp he).2
  · intro b hb
    rw [worker_eq_none_iff]
    intro c _ h2 r hr
    exact hall r hr c (lt_of_lt_of_le h2 (hin b hb))

/-- When exactly one cell of the matrix fires a test, every split reports the
message of that cell. -/
theorem scan_of_single {isNA : Dbl → Bool} {M Cov : NumericMatrix} {blocks : List Block}
    {k r0 c0 : Nat} {msg : String} (hsplit : IsSplit blocks M.ncol k)
    (hr0 : r0 < M.nrow) (hc0 : c0 < M.ncol)
    (hbad : checkCell isNA (M.cell r0 c0) (Cov.cell r0 c0) = some msg)
    (hrest : ∀ r, r < M.nrow → ∀ c, c < M.ncol → ¬ (r = r0 ∧ c = c0) →
      checkCell isNA (M.cell r c) (Cov.cell r c) = none) :
    firstError (runWorkers isNA M Cov M.nrow blocks (List.replicate k "")) = some msg := by
  obtain ⟨hin, hcov, hslot⟩ := hsplit
  apply firstError_of_forall
  · apply runWorkers_forall (fun e => e = "" ∨ e = msg)
    · intro b hb m hm
      obtain ⟨c, r, _, h2, hr, hcell⟩ := worker_eq_some hm
      have hc : c < M.ncol := lt_of_lt_of_le h2 (hin b hb)
      by_cases hpos : r = r0 ∧ c = c0
      · obtain ⟨h3, h4⟩ := hpos
        subst h3 h4
        rw [hbad] at hcell
        exact Or.inr (Option.some.inj hcell).symm
      · rw [hrest r hr c hc hpos] at hcell
        exact absurd hcell (by simp)
    · intro e he
      exact Or.inl (List.mem_replicate.mp he).2
  · apply runWorkers_exists_ne_empty
    left
    obtain ⟨b, hb, h1, h2⟩ := hcov c0 hc0
    refine ⟨b, hb, by simpa using hslot b hb, ?_⟩
    intro hnone
    have := worker_eq_none_iff.mp hnone c0 h1 h2 r0 hr0
    rw [hbad] at this
    exact absurd this (by simp)

/-- The cells of an injected matrix away from the place of the injection. -/
theorem inject_cell_ne (A : NumericMatrix) (r0 c0 : Nat) (v : Dbl) (r c : Nat)
    (h : ¬ (r = r0 ∧ c = c0)) : (A.inject r0 c0 v).cell r c = A.cell r c := by
  simp [NumericMatrix.inject, h]

/-- The cell of an injected matrix at the place of the injection. -/
theorem inject_cell_eq (A : NumericMatrix) (r0 c0 : Nat) (v : Dbl) :
    (A.inject r0 c0 v).cell r0 c0 = v := by
  simp [NumericMatrix.inject]

/-! ## C1: completeness -/

/-- C1: for two matrices of equal shape (zero rows or columns included) whose
cells are all non-missing with `0 <= M <= Cov` and `Cov` finite, for every
worker count `n >= 1` and every list of blocks inside `[0, ncol)`, the function
returns the null sentinel; the result is the same for one worker and for many. -/
theorem check_M_and_Cov_complete (END_RCPP : Fault → Outcome) (isNA : Dbl → Bool)
    (parallelize : Nat → Nat → List Block) (M Cov : NumericMatrix) (n : Int)
    (hrow : M.nrow = Cov.nrow) (hcol : M.ncol = Cov.ncol) (hn : 1 ≤ n)
    (hin : Within (parallelize M.ncol n.toNat) M.ncol)
    (hvalid : ValidPair isNA M Cov) :
    check_M_and_Cov END_RCPP isNA parallelize (SEXP.matrix M) (SEXP.matrix Cov)
        (SEXP.integer [n]) = Outcome.value none := by
  rw [check_M_and_Cov_scan END_RCPP isNA parallelize M Cov n hrow hcol hn]
  rw [scan_of_all_none n.toNat hin]
  intro r hr c hc
  exact checkCell_of_valid (hvalid r hr c hc)

/-- C1 at the valid 2 x 3 pair with two workers. -/
theorem check_M_and_Cov_complete_witness :
    check_M_and_Cov Rcpp_END_RCPP Dbl.isNaN evenSplit (SEXP.matrix exM) (SEXP.matrix exCov)
        (SEXP.integer [2]) = Outcome.value none :=
  check_M_and_Cov_complete Rcpp_END_RCPP Dbl.isNaN evenSplit exM exCov 2 rfl rfl
    (by decide) (by decide) (by decide)

/-! ## C2: soundness -/

/-- C2: for two matrices of equal shape and a worker count `n >= 1` whose
blocks cover every column (each block writing to a slot of `errors`), a null
result means that every cell has `M` not missing, `Cov` not missing,
`0 <= M <= Cov` and `Cov` finite; and a pair with a violating cell, a NaN or
an infinite `M` included, gives a non-empty message. `isNA` is taken to be
true of every NaN, as `anyNA` in the comment of lines 42-43 is. -/
theorem check_M_and_Cov_sound (END_RCPP : Fault → Outcome) (isNA : Dbl → Bool)
    (parallelize : Nat → Nat → List Block) (M Cov : NumericMatrix) (n : Int)
    (hnan : ∀ x, Dbl.isNaN x = true → isNA x = true)
    (hrow : M.nrow = Cov.nrow) (hcol : M.ncol = Cov.ncol) (hn : 1 ≤ n)
    (hcov : Covers (parallelize M.ncol n.toNat) M.ncol)
    (hslot : SlotsIn (parallelize M.ncol n.toNat) n.toNat) :
    (check_M_and_Cov END_RCPP isNA parallelize (SEXP.matrix M) (SEXP.matrix Cov)
        (SEXP.integer [n]) = Outcome.value none → ValidPair isNA M Cov) ∧
    (¬ ValidPair isNA M Cov → ∃ msg : String, msg ≠ "" ∧
      check_M_and_Cov END_RCPP isNA parallelize (SEXP.matrix M) (SEXP.matrix Cov)
        (SEXP.integer [n]) = Outcome.value (some msg)) := by
  rw [check_M_and_Cov_scan END_RCPP isNA parallelize M Cov n hrow hcol hn]
  have hsound : firstError (runWorkers isNA M Cov M.nrow (parallelize M.ncol n.toNat)
      (List.replicate n.toNat "")) = none → ValidPair isNA M Cov := by
    intro hres
    have hnone := (firstError_eq_none_iff _).mp hres
    intro r hr c hc
    apply valid_of_checkCell hnan
    obtain ⟨b, hb, h1, h2⟩ := hcov c hc
    have hw : worker isNA M Cov M.nrow b.start b.length = none := by
      by_contra hne
      obtain ⟨e, he, hne2⟩ := runWorkers_exists_ne_empty (parallelize M.ncol n.toNat)
        (List.replicate n.toNat "") (Or.inl ⟨b, hb, by simpa using hslot b hb, hne⟩)
      exact hne2 (hnone e he)
    exact worker_eq_none_iff.mp hw c h1 h2 r hr
  refine ⟨fun hres => hsound (Outcome.value.inj hres), ?_⟩
  intro hbad
  cases hres : firstError (runWorkers isNA M Cov M.nrow (parallelize M.ncol n.toNat)
      (List.replicate n.toNat "")) with
  | none => exact absurd (hsound hres) hbad
  | some msg => exact ⟨msg, (firstError_eq_some hres).2, rfl⟩

/-- C2 at the 2 x 3 pair with a NaN put in `M[0,0]`, with two workers: a
message is returned. -/
theorem check_M_and_Cov_sound_witness :
    ∃ msg : String, msg ≠ "" ∧
      check_M_and_Cov Rcpp_END_RCPP Dbl.isNaN evenSplit
        (SEXP.matrix (exM.inject 0 0 Dbl.nan)) (SEXP.matrix exCov) (SEXP.integer [2]) =
          Outcome.value (some msg) :=
  (check_M_and_Cov_sound Rcpp_END_RCPP Dbl.isNaN evenSplit (exM.inject 0 0 Dbl.nan) exCov 2
    (fun _ h => h) rfl rfl (by decide) (by decide) (by decide)).2 (by decide)

/-- A test `isNA` that knows `NA_real_` only lets a NaN of `M` through: the
hypothesis on `isNA` in C2 cannot be dropped. -/
theorem nan_in_M_passes_a_marker_only_isNA :
    check_M_and_Cov Rcpp_END_RCPP (fun x => decide (x = Dbl.na)) evenSplit
        (SEXP.matrix (exM.inject 0 0 Dbl.nan)) (SEXP.matrix exCov) (SEXP.integer [2]) =
      Outcome.value none := by
  decide

/-! ## C3: the checks of shape come first -/

/-- C3: whatever the cells and whatever the worker-count argument, two
matrices with different numbers of rows give the message on rows, also when
the numbers of columns differ too; with equal rows and different columns they
give the message on columns; the result is never one that the tests on a cell
produce. -/
theorem check_M_and_Cov_shape (END_RCPP : Fault → Outcome) (isNA : Dbl → Bool)
    (parallelize : Nat → Nat → List Block) (M Cov : NumericMatrix) (nt : SEXP) :
    (M.nrow ≠ Cov.nrow →
      check_M_and_Cov END_RCPP isNA parallelize (SEXP.matrix M) (SEXP.matrix Cov) nt =
        Outcome.value (some msgRows)) ∧
    (M.nrow = Cov.nrow → M.ncol ≠ Cov.ncol →
      check_M_and_Cov END_RCPP isNA parallelize (SEXP.matrix M) (SEXP.matrix Cov) nt =
        Outcome.value (some msgCols)) ∧
    (M.nrow ≠ Cov.nrow ∨ M.ncol ≠ Cov.ncol → ∀ m c,
      check_M_and_Cov END_RCPP isNA parallelize (SEXP.matrix M) (SEXP.matrix Cov) nt ≠
        Outcome.value (checkCell isNA m c)) := by
  have hcell : ∀ m c, checkCell isNA m c ≠ some msgRows ∧ checkCell isNA m c ≠ some msgCols := by
    intro m c
    unfold checkCell
    split_ifs <;> decide
  refine ⟨?_, ?_, ?_⟩
  · intro h
    simp [check_M_and_Cov, check_M_and_Cov_body, BoundNumericPointer, h]
  · intro h1 h2
    simp [check_M_and_Cov, check_M_and_Cov_body, BoundNumericPointer, h1, h2]
  · intro h m c
    by_cases h1 : M.nrow = Cov.nrow
    · have h2 : M.ncol ≠ Cov.ncol := by
        rcases h with h | h
        · exact absurd h1 h
        · exact h
      simp only [check_M_and_Cov, check_M_and_Cov_body, BoundNumericPointer, h1, h2, ne_eq,
        not_true_eq_false, not_false_eq_true, if_true, if_false]
      intro heq
      exact (hcell m c).2 (Outcome.value.inj heq).symm
    · simp only [check_M_and_Cov, check_M_and_Cov_body, BoundNumericPointer, h1, ne_eq,
        not_false_eq_true, if_true]
      intro heq
      exact (hcell m c).1 (Outcome.value.inj heq).symm

/-- C3 at a 2 x 3 and a 3 x 2 matrix (rows and columns both differ) and at a
2 x 3 and a 2 x 2 matrix, with a worker count that is not even an integer. -/
theorem check_M_and_Cov_shape_witness :
    check_M_and_Cov Rcpp_END_RCPP Dbl.isNaN evenSplit (SEXP.matrix exM) (SEXP.matrix exTall)
        SEXP.other = Outcome.value (some msgRows) ∧
    check_M_and_Cov Rcpp_END_RCPP Dbl.isNaN evenSplit (SEXP.matrix exM) (SEXP.matrix exSquare)
        SEXP.other = Outcome.value (some msgCols) :=
  ⟨(check_M_and_Cov_shape Rcpp_END_RCPP Dbl.isNaN evenSplit exM exTall SEXP.other).1
      (by decide),
   (check_M_and_Cov_shape Rcpp_END_RCPP Dbl.isNaN evenSplit exM exSquare SEXP.other).2.1
      (by decide) (by decide)⟩

/-! ## C4: the worker count -/

/-- C4, as stated, fails: with two rows against three and the worker count 0,
the function reports the rows, not the worker count. -/
theorem check_M_and_Cov_threads_counterexample :
    check_M_and_Cov Rcpp_END_RCPP Dbl.isNaN evenSplit (SEXP.matrix exM) (SEXP.matrix exTall)
        (SEXP.integer [0]) = Outcome.value (some msgRows) ∧
    check_M_and_Cov Rcpp_END_RCPP Dbl.isNaN evenSplit (SEXP.matrix exM) (SEXP.matrix exTall)
        (SEXP.integer [0]) ≠ Outcome.value (some msgThreads) := by
  decide

/-- C4, amended: for two matrices of EQUAL shape, whatever their cells, a
worker-count vector that is not a single positive integer (zero, negative, or
of a length other than 1) gives the message on the number of threads. -/
theorem check_M_and_Cov_threads (END_RCPP : Fault → Outcome) (isNA : Dbl → Bool)
    (parallelize : Nat → Nat → List Block) (M Cov : NumericMatrix) (v : List Int)
    (hrow : M.nrow = Cov.nrow) (hcol : M.ncol = Cov.ncol)
    (hv : ¬ ∃ n : Int, v = [n] ∧ 0 < n) :
    check_M_and_Cov END_RCPP isNA parallelize (SEXP.matrix M) (SEXP.matrix Cov)
        (SEXP.integer v) = Outcome.value (some msgThreads) := by
  have hbad : v.length ≠ 1 ∨ v.headD 0 ≤ 0 := by
    match v, hv with
    | [], _ => exact Or.inl (by simp)
    | [n], hv =>
      right
      by_contra hpos
      exact hv ⟨n, rfl, by simpa using hpos⟩
    | _ :: _ :: _, _ => exact Or.inl (by simp)
  simp only [check_M_and_Cov, check_M_and_Cov_body, BoundNumericPointer, IntegerVector, hrow,
    hcol, ne_eq, not_true_eq_false, if_false, hbad, if_true]

/-- C4, amended, at the valid 2 x 3 pair with the counts `[0]`, `[-1]`, `[]`
and `[2, 2]`. -/
theorem check_M_and_Cov_threads_witness :
    check_M_and_Cov Rcpp_END_RCPP Dbl.isNaN evenSplit (SEXP.matrix exM) (SEXP.matrix exCov)
        (SEXP.integer [0]) = Outcome.value (some msgThreads) ∧
    check_M_and_Cov Rcpp_END_RCPP Dbl.isNaN evenSplit (SEXP.matrix exM) (SEXP.matrix exCov)
        (SEXP.integer [-1]) = Outcome.value (some msgThreads) ∧
    check_M_and_Cov Rcpp_END_RCPP Dbl.isNaN evenSplit (SEXP.matrix exM) (SEXP.matrix exCov)
        (SEXP.integer []) = Outcome.value (some msgThreads) ∧
    check_M_and_Cov Rcpp_END_RCPP Dbl.isNaN evenSplit (SEXP.matrix exM) (SEXP.matrix exCov)
        (SEXP.integer [2, 2]) = Outcome.value (some msgThreads) :=
  ⟨check_M_and_Cov_threads Rcpp_END_RCPP Dbl.isNaN evenSplit exM exCov [0] rfl rfl (by simp),
   check_M_and_Cov_threads Rcpp_END_RCPP Dbl.isNaN evenSplit exM exCov [-1] rfl rfl (by simp),
   check_M_and_Cov_threads Rcpp_END_RCPP Dbl.isNaN evenSplit exM exCov [] rfl rfl (by simp),
   check_M_and_Cov_threads Rcpp_END_RCPP Dbl.isNaN evenSplit exM exCov [2, 2] rfl rfl
     (by simp)⟩

/-- After an injection at one cell of a valid pair that makes the tests fire
there with `msg`, every split reports `msg`. -/
theorem check_M_and_Cov_injected (END_RCPP : Fault → Outcome) (isNA : Dbl → Bool)
    (parallelize : Nat → Nat → List Block) (M Cov : NumericMatrix) (n : Int)
    (r c : Nat) (vM vCov : Dbl) (msg : String)
    (hrow : M.nrow = Cov.nrow) (hcol : M.ncol = Cov.ncol) (hn : 1 ≤ n)
    (hvalid : ValidPair isNA M Cov) (hr : r < M.nrow) (hc : c < M.ncol)
    (hsplit : IsSplit (parallelize M.ncol n.toNat) M.ncol n.toNat)
    (hbad : checkCell isNA vM vCov = some msg) :
    check_M_and_Cov END_RCPP isNA parallelize (SEXP.matrix (M.inject r c vM))
        (SEXP.matrix (Cov.inject r c vCov)) (SEXP.integer [n]) = Outcome.value (some msg) := by
  rw [check_M_and_Cov_scan END_RCPP isNA parallelize (M.inject r c vM) (Cov.inject r c vCov) n
    hrow hcol hn]
  have hs : firstError (runWorkers isNA (M.inject r c vM) (Cov.inject r c vCov)
      (M.inject r c vM).nrow (parallelize (M.inject r c vM).ncol n.toNat)
      (List.replicate n.toNat "")) = some msg := by
    apply @scan_of_single isNA (M.inject r c vM) (Cov.inject r c vCov) _ _ r c msg hsplit hr hc
    · rw [inject_cell_eq, inject_cell_eq]
      exact hbad
    · intro r1 hr1 c1 hc1 hne
      rw [inject_cell_ne M r c vM r1 c1 hne, inject_cell_ne Cov r c vCov r1 c1 hne]
      exact checkCell_of_valid (hvalid r1 hr1 c1 hc1)
  rw [hs]

/-- An injection of the value already there changes no cell. -/
theorem inject_self (A : NumericMatrix) (r c : Nat) : A.inject r c (A.cell r c) = A := by
  cases A with
  | mk nrow ncol cell =>
    simp only [NumericMatrix.inject, NumericMatrix.mk.injEq, true_and]
    funext i j
    split
    next h => rw [h.1, h.2]
    next => rfl

/-! ## C5: one missing value in `M` -/

/-- C5: in a valid pair of equal shape, replacing `M[r,c]` by a value that
`isNA` calls missing makes the result the message "'M' must not contain NAs.",
for every cell, every worker count `n >= 1` and every split of the columns. -/
theorem check_M_and_Cov_M_missing (END_RCPP : Fault → Outcome) (isNA : Dbl → Bool)
    (parallelize : Nat → Nat → List Block) (M Cov : NumericMatrix) (n : Int)
    (r c : Nat) (v : Dbl)
    (hrow : M.nrow = Cov.nrow) (hcol : M.ncol = Cov.ncol) (hn : 1 ≤ n)
    (hvalid : ValidPair isNA M Cov) (hr : r < M.nrow) (hc : c < M.ncol)
    (hsplit : IsSplit (parallelize M.ncol n.toNat) M.ncol n.toNat)
    (hv : isNA v = true) :
    check_M_and_Cov END_RCPP isNA parallelize (SEXP.matrix (M.inject r c v))
        (SEXP.matrix Cov) (SEXP.integer [n]) =
      Outcome.value (some "'M' must not contain NAs.") := by
  have h := check_M_and_Cov_injected END_RCPP isNA parallelize M Cov n r c v (Cov.cell r c)
    msgMNA hrow hcol hn hvalid hr hc hsplit (by simp [checkCell, hv])
  rw [inject_self] at h
  exact h

/-- C5 at the valid 2 x 3 pair: `NA_real_` put in the last column, which
belongs to the second of two workers. -/
theorem check_M_and_Cov_M_missing_witness :
    check_M_and_Cov Rcpp_END_RCPP Dbl.isNaN evenSplit (SEXP.matrix (exM.inject 1 2 Dbl.na))
        (SEXP.matrix exCov) (SEXP.integer [2]) =
      Outcome.value (some "'M' must not contain NAs.") :=
  check_M_and_Cov_M_missing Rcpp_END_RCPP Dbl.isNaN evenSplit exM exCov 2 1 2 Dbl.na rfl rfl
    (by decide) (by decide) (by decide) (by decide) (by decide) rfl

/-! ## C6: `M` above `Cov` -/

theorem log2Fuel_eq (fuel n : Nat) (h : n ≤ fuel) : log2Fuel fuel n = Nat.log2 n := by
  induction fuel generalizing n with
  | zero =>
    have : n = 0 := by omega
    subst this
    simp [log2Fuel, Nat.log2]
  | succ k ih =>
    rw [log2Fuel, Nat.log2]
    by_cases h2 : n < 2
    · rw [if_pos h2, if_neg (by omega)]
    · rw [if_neg h2, if_pos (by omega), ih (n / 2) (by omega)]

/-- The rounding on some integers: small ones are kept, and past `2 ^ 53`,
where only the even integers are doubles, an odd one goes to the neighbour
with the even significand. -/
theorem roundDouble_examples :
    roundDouble 5 = Dbl.fin 5 ∧ roundDouble (-3) = Dbl.fin (-3) ∧
    roundDouble 9007199254740993 = Dbl.fin 9007199254740992 ∧
    roundDouble 9007199254740995 = Dbl.fin 9007199254740996 := by
  decide

/-- A value above a coverage that is not missing and not negative fires the
test `M > Cov`, and no test before it. -/
theorem checkCell_of_gt {isNA : Dbl → Bool} {v c : Dbl} (hv : isNA v = false)
    (hc : isNA c = false) (hpos : Dbl.le zero c = true) (hgt : Dbl.gt v c = true) :
    checkCell isNA v c = some msgMGtCov := by
  cases v <;> cases c <;>
    simp_all [checkCell, Dbl.le, Dbl.lt, Dbl.gt, zero]
  intro hneg
  linarith

/-- In a valid cell the coverage is not missing, not negative and finite, so
the cell with the coverage as count is valid too. -/
theorem cellValid_self {isNA : Dbl → Bool} {m c : Dbl} (h : CellValid isNA m c) :
    Dbl.le zero c = true ∧ CellValid isNA c c := by
  obtain ⟨h1, h2, h3, h4, h5⟩ := h
  cases m <;> cases c <;>
    simp_all [CellValid, Dbl.le, R_FINITE, zero]
  exact le_trans h3 h4

/-- C6, as stated, fails: with the coverage `2 ^ 53` the double
`Cov[0,0] + 1` is `Cov[0,0]` again (the exact sum lies half-way between two
doubles and is rounded to the even one), so setting `M[0,0] = Cov[0,0] + 1`
leaves a valid pair and the function returns the null sentinel, not the
message. -/
theorem check_M_and_Cov_M_above_Cov_counterexample :
    ValidPair Dbl.isNaN exBigM exBigCov ∧
    Dbl.add (exBigCov.cell 0 0) (Dbl.fin 1) = exBigCov.cell 0 0 ∧
    check_M_and_Cov Rcpp_END_RCPP Dbl.isNaN evenSplit
        (SEXP.matrix (exBigM.inject 0 0 (Dbl.add (exBigCov.cell 0 0) (Dbl.fin 1))))
        (SEXP.matrix exBigCov) (SEXP.integer [1]) = Outcome.value none ∧
    check_M_and_Cov Rcpp_END_RCPP Dbl.isNaN evenSplit
        (SEXP.matrix (exBigM.inject 0 0 (Dbl.add (exBigCov.cell 0 0) (Dbl.fin 1))))
        (SEXP.matrix exBigCov) (SEXP.integer [1]) ≠
      Outcome.value (some
        "All values of 'M' must be less than or equal to the corresponding value of 'Cov'.") := by
  have hsum : Dbl.add (exBigCov.cell 0 0) (Dbl.fin 1) = Dbl.fin 9007199254740992 := by
    have h : (9007199254740992 : ℚ) + 1 = 9007199254740993 := by norm_num
    show roundDouble ((9007199254740992 : ℚ) + 1) = _
    rw [h]
    decide
  rw [hsum]
  decide

/-- C6, amended: in a valid pair of equal shape, for every cell, every worker
count `n >= 1` and every split, setting `M[r,c]` to the double
`Cov[r,c] + 1` makes the result the message "All values of 'M' must be less
than or equal to the corresponding value of 'Cov'." whenever that double is
above `Cov[r,c]` (and is not called missing by `isNA`), in particular when
the sum is exact; when the sum is rounded back to `Cov[r,c]` the pair is
still valid and the result is the null sentinel. -/
theorem check_M_and_Cov_M_above_Cov (END_RCPP : Fault → Outcome) (isNA : Dbl → Bool)
    (parallelize : Nat → Nat → List Block) (M Cov : NumericMatrix) (n : Int)
    (r c : Nat)
    (hrow : M.nrow = Cov.nrow) (hcol : M.ncol = Cov.ncol) (hn : 1 ≤ n)
    (hvalid : ValidPair isNA M Cov) (hr : r < M.nrow) (hc : c < M.ncol)
    (hsplit : IsSplit (parallelize M.ncol n.toNat) M.ncol n.toNat) :
    (isNA (Dbl.add (Cov.cell r c) (Dbl.fin 1)) = false →
      Dbl.gt (Dbl.add (Cov.cell r c) (Dbl.fin 1)) (Cov.cell r c) = true →
      check_M_and_Cov END_RCPP isNA parallelize
          (SEXP.matrix (M.inject r c (Dbl.add (Cov.cell r c) (Dbl.fin 1))))
          (SEXP.matrix Cov) (SEXP.integer [n]) =
        Outcome.value (some
          "All values of 'M' must be less than or equal to the corresponding value of 'Cov'.")) ∧
    (∀ q : ℚ, Cov.cell r c = Dbl.fin q →
      Dbl.add (Cov.cell r c) (Dbl.fin 1) = Dbl.fin (q + 1) →
      isNA (Dbl.fin (q + 1)) = false →
      check_M_and_Cov END_RCPP isNA parallelize
          (SEXP.matrix (M.inject r c (Dbl.add (Cov.cell r c) (Dbl.fin 1))))
          (SEXP.matrix Cov) (SEXP.integer [n]) =
        Outcome.value (some
          "All values of 'M' must be less than or equal to the corresponding value of 'Cov'.")) ∧
    (Dbl.add (Cov.cell r c) (Dbl.fin 1) = Cov.cell r c →
      check_M_and_Cov END_RCPP isNA parallelize
          (SEXP.matrix (M.inject r c (Dbl.add (Cov.cell r c) (Dbl.fin 1))))
          (SEXP.matrix Cov) (SEXP.integer [n]) = Outcome.value none) := by
  have hcell := hvalid r hr c hc
  have hself := cellValid_self hcell
  have hfire : isNA (Dbl.add (Cov.cell r c) (Dbl.fin 1)) = false →
      Dbl.gt (Dbl.add (Cov.cell r c) (Dbl.fin 1)) (Cov.cell r c) = true →
      check_M_and_Cov END_RCPP isNA parallelize
          (SEXP.matrix (M.inject r c (Dbl.add (Cov.cell r c) (Dbl.fin 1))))
          (SEXP.matrix Cov) (SEXP.integer [n]) = Outcome.value (some msgMGtCov) := by
    intro hv hgt
    have h := check_M_and_Cov_injected END_RCPP isNA parallelize M Cov n r c
      (Dbl.add (Cov.cell r c) (Dbl.fin 1)) (Cov.cell r c) msgMGtCov hrow hcol hn hvalid hr hc
      hsplit (checkCell_of_gt hv hcell.2.1 hself.1 hgt)
    rw [inject_self] at h
    exact h
  refine ⟨hfire, ?_, ?_⟩
  · intro q hq hsum hv
    apply hfire
    · rw [hsum]
      exact hv
    · rw [hsum, hq]
      simp [Dbl.gt, Dbl.lt]
  · intro hsame
    rw [hsame]
    rw [check_M_and_Cov_scan END_RCPP isNA parallelize (M.inject r c (Cov.cell r c)) Cov n
      hrow hcol hn]
    have hs : firstError (runWorkers isNA (M.inject r c (Cov.cell r c)) Cov
        (M.inject r c (Cov.cell r c)).nrow
        (parallelize (M.inject r c (Cov.cell r c)).ncol n.toNat)
        (List.replicate n.toNat "")) = none := by
      apply @scan_of_all_none isNA (M.inject r c (Cov.cell r c)) Cov _ n.toNat hsplit.1
      intro r1 hr1 c1 hc1
      by_cases hpos : r1 = r ∧ c1 = c
      · obtain ⟨h1, h2⟩ := hpos
        subst h1 h2
        rw [inject_cell_eq]
        exact checkCell_of_valid hself.2
      · rw [inject_cell_ne M r c _ r1 c1 hpos]
        exact checkCell_of_valid (hvalid r1 hr1 c1 hc1)
    rw [hs]

/-- C6, amended, at the valid 2 x 3 pair: `Cov[0,1] = 4`, the double
`Cov[0,1] + 1` is 5, above 4, and the message is returned. -/
theorem check_M_and_Cov_M_above_Cov_witness :
    check_M_and_Cov Rcpp_END_RCPP Dbl.isNaN evenSplit
        (SEXP.matrix (exM.inject 0 1 (Dbl.add (exCov.cell 0 1) (Dbl.fin 1))))
        (SEXP.matrix exCov) (SEXP.integer [3]) =
      Outcome.value (some
        "All values of 'M' must be less than or equal to the corresponding value of 'Cov'.") :=
  have hsum : Dbl.add (exCov.cell 0 1) (Dbl.fin 1) = Dbl.fin 5 := by
    have h : (4 : ℚ) + 1 = 5 := by norm_num
    show roundDouble ((4 : ℚ) + 1) = _
    rw [h]
    decide
  (check_M_and_Cov_M_above_Cov Rcpp_END_RCPP Dbl.isNaN evenSplit exM exCov 3 0 1 rfl rfl
    (by decide) (by decide) (by decide) (by decide) (by decide)).1
    (by rw [hsum]; rfl) (by rw [hsum]; decide)

/-! ## C7: infinite coverage -/

/-- C7: in a valid pair of equal shape, setting `Cov[r,c]` to `+Infinity` and
`M[r,c]` to 0 (neither of which `isNA` calls missing) makes the result the
message "All values of 'Cov' must be finite.", for every cell, every worker
count `n >= 1` and every split. -/
theorem check_M_and_Cov_Cov_infinite (END_RCPP : Fault → Outcome) (isNA : Dbl → Bool)
    (parallelize : Nat → Nat → List Block) (M Cov : NumericMatrix) (n : Int)
    (r c : Nat)
    (hrow : M.nrow = Cov.nrow) (hcol : M.ncol = Cov.ncol) (hn : 1 ≤ n)
    (hvalid : ValidPair isNA M Cov) (hr : r < M.nrow) (hc : c < M.ncol)
    (hsplit : IsSplit (parallelize M.ncol n.toNat) M.ncol n.toNat)
    (hzero : isNA (Dbl.fin 0) = false) (hinf : isNA Dbl.pinf = false) :
    check_M_and_Cov END_RCPP isNA parallelize (SEXP.matrix (M.inject r c (Dbl.fin 0)))
        (SEXP.matrix (Cov.inject r c Dbl.pinf)) (SEXP.integer [n]) =
      Outcome.value (some "All values of 'Cov' must be finite.") :=
  check_M_and_Cov_injected END_RCPP isNA parallelize M Cov n r c (Dbl.fin 0) Dbl.pinf
    msgCovFinite hrow hcol hn hvalid hr hc hsplit
    (by simp [checkCell, hzero, hinf, Dbl.lt, Dbl.gt, zero, R_FINITE, msgCovFinite])

/-- C7 at the valid 2 x 3 pair: the injection in the middle column, with
three workers. -/
theorem check_M_and_Cov_Cov_infinite_witness :
    check_M_and_Cov Rcpp_END_RCPP Dbl.isNaN evenSplit
        (SEXP.matrix (exM.inject 1 1 (Dbl.fin 0))) (SEXP.matrix (exCov.inject 1 1 Dbl.pinf))
        (SEXP.integer [3]) =
      Outcome.value (some "All values of 'Cov' must be finite.") :=
  check_M_and_Cov_Cov_infinite Rcpp_END_RCPP Dbl.isNaN evenSplit exM exCov 3 1 1 rfl rfl
    (by decide) (by decide) (by decide) (by decide) (by decide) rfl rfl

/-! ## C8: a missing coverage is reported as missing -/

/-- C8: in a valid pair of equal shape, replacing `Cov[r,c]` by a value that
`isNA` calls missing (`M[r,c]` untouched, so not missing) makes the result the
message "'Cov' must not contain NAs." and not "All values of 'Cov' must be
finite.", for every cell, every worker count `n >= 1` and every split. -/
theorem check_M_and_Cov_Cov_missing (END_RCPP : Fault → Outcome) (isNA : Dbl → Bool)
    (parallelize : Nat → Nat → List Block) (M Cov : NumericMatrix) (n : Int)
    (r c : Nat) (v : Dbl)
    (hrow : M.nrow = Cov.nrow) (hcol : M.ncol = Cov.ncol) (hn : 1 ≤ n)
    (hvalid : ValidPair isNA M Cov) (hr : r < M.nrow) (hc : c < M.ncol)
    (hsplit : IsSplit (parallelize M.ncol n.toNat) M.ncol n.toNat)
    (hv : isNA v = true) :
    check_M_and_Cov END_RCPP isNA parallelize (SEXP.matrix M)
        (SEXP.matrix (Cov.inject r c v)) (SEXP.integer [n]) =
      Outcome.value (some "'Cov' must not contain NAs.") ∧
    check_M_and_Cov END_RCPP isNA parallelize (SEXP.matrix M)
        (SEXP.matrix (Cov.inject r c v)) (SEXP.integer [n]) ≠
      Outcome.value (some "All values of 'Cov' must be finite.") := by
  have hm : isNA (M.cell r c) = false := (hvalid r hr c hc).1
  have h := check_M_and_Cov_injected END_RCPP isNA parallelize M Cov n r c (M.cell r c) v
    msgCovNA hrow hcol hn hvalid hr hc hsplit (by simp [checkCell, hm, hv])
  rw [inject_self] at h
  rw [h]
  exact ⟨rfl, by decide⟩

/-- C8 at the valid 2 x 3 pair: `NA_real_`, which is not finite, put in the
first column of `Cov`, with two workers. -/
theorem check_M_and_Cov_Cov_missing_witness :
    R_FINITE Dbl.na = false ∧
    check_M_and_Cov Rcpp_END_RCPP Dbl.isNaN evenSplit (SEXP.matrix exM)
        (SEXP.matrix (exCov.inject 1 0 Dbl.na)) (SEXP.integer [2]) =
      Outcome.value (some "'Cov' must not contain NAs.") :=
  ⟨rfl, (check_M_and_Cov_Cov_missing Rcpp_END_RCPP Dbl.isNaN evenSplit exM exCov 2 1 0 Dbl.na
    rfl rfl (by decide) (by decide) (by decide) (by decide) (by decide) rfl).1⟩

/-! ## C9: one violating cell, any number of workers -/

/-- C9: when exactly one cell of two matrices of equal shape violates the
constraint (not missing, `0 <= M <= Cov`, `Cov` finite), there is one
non-empty message that the function returns for every worker count `n >= 1`
(so for every count from 1 to `ncol`) and every split of the columns. `isNA`
is taken to be true of every NaN, as in C2. -/
theorem check_M_and_Cov_single_violation (isNA : Dbl → Bool) (M Cov : NumericMatrix)
    (r0 c0 : Nat) (hnan : ∀ x, Dbl.isNaN x = true → isNA x = true)
    (hrow : M.nrow = Cov.nrow) (hcol : M.ncol = Cov.ncol)
    (hr0 : r0 < M.nrow) (hc0 : c0 < M.ncol)
    (hbad : ¬ CellValid isNA (M.cell r0 c0) (Cov.cell r0 c0))
    (hrest : ∀ r, r < M.nrow → ∀ c, c < M.ncol → ¬ (r = r0 ∧ c = c0) →
      CellValid isNA (M.cell r c) (Cov.cell r c)) :
    ∃ msg : String, msg ≠ "" ∧
      ∀ (END_RCPP : Fault → Outcome) (parallelize : Nat → Nat → List Block) (n : Int),
        1 ≤ n → IsSplit (parallelize M.ncol n.toNat) M.ncol n.toNat →
        check_M_and_Cov END_RCPP isNA parallelize (SEXP.matrix M) (SEXP.matrix Cov)
          (SEXP.integer [n]) = Outcome.value (some msg) := by
  cases hcell : checkCell isNA (M.cell r0 c0) (Cov.cell r0 c0) with
  | none => exact absurd (valid_of_checkCell hnan hcell) hbad
  | some msg =>
    refine ⟨msg, checkCell_ne_empty hcell, ?_⟩
    intro END_RCPP parallelize n hn hsplit
    rw [check_M_and_Cov_scan END_RCPP isNA parallelize M Cov n hrow hcol hn]
    rw [scan_of_single hsplit hr0 hc0 hcell]
    intro r hr c hc hne
    exact checkCell_of_valid (hrest r hr c hc hne)

/-- C9 at the 2 x 3 pair with `M[1,2] = 7` above `Cov[1,2] = 6` and every
other cell valid. -/
theorem check_M_and_Cov_single_violation_witness :
    ∃ msg : String, msg ≠ "" ∧
      ∀ (END_RCPP : Fault → Outcome) (parallelize : Nat → Nat → List Block) (n : Int),
        1 ≤ n → IsSplit (parallelize 3 n.toNat) 3 n.toNat →
        check_M_and_Cov END_RCPP Dbl.isNaN parallelize
          (SEXP.matrix (exM.inject 1 2 (Dbl.fin 7))) (SEXP.matrix exCov)
          (SEXP.integer [n]) = Outcome.value (some msg) :=
  check_M_and_Cov_single_violation Dbl.isNaN (exM.inject 1 2 (Dbl.fin 7)) exCov 1 2
    (fun _ h => h) rfl rfl (by decide) (by decide) (by decide) (by decide)

/-! ## C10: what becomes of an exception -/

theorem columnsThrowing_ok {throws : FaultPoint → Bool} {isNA : Dbl → Bool}
    {M Cov : NumericMatrix} {nrow : Nat} {cols : List Nat} {v : Option String}
    (h : columnsThrowing throws isNA M Cov nrow cols = Except.ok v) :
    (cols.findSome? fun c =>
      scanColumn isNA nrow (fun r => M.cell r c) (fun r => Cov.cell r c)) = v := by
  induction cols with
  | nil =>
    simp only [columnsThrowing, Except.ok.injEq] at h
    rw [← h]
    rfl
  | cons c cs ih =>
    rw [columnsThrowing] at h
    split_ifs at h
    rw [List.findSome?_cons]
    cases hs : scanColumn isNA nrow (fun r => M.cell r c) (fun r => Cov.cell r c) with
    | some msg =>
      rw [hs] at h
      simp only [Except.ok.injEq] at h
      exact h
    | none =>
      rw [hs] at h
      exact ih h

/-- A call of the lambda that ends without an exception has recorded what
`worker` says. -/
theorem workerThrowing_ok {throws : FaultPoint → Bool} {isNA : Dbl → Bool}
    {M Cov : NumericMatrix} {nrow : Nat} {b : Block} {v : Option String}
    (h : workerThrowing throws isNA M Cov nrow b = Except.ok v) :
    worker isNA M Cov nrow b.start b.length = v := by
  unfold workerThrowing at h
  split_ifs at h
  exact columnsThrowing_ok h

/-- A parallel phase that ends without an exception leaves the vector of
messages of `runWorkers`. -/
theorem runWorkersThrowing_ok {throws : FaultPoint → Bool} {isNA : Dbl → Bool}
    {M Cov : NumericMatrix} {nrow : Nat} {blocks : List Block} {errs errs1 : List String}
    (h : runWorkersThrowing throws isNA M Cov nrow blocks errs = Except.ok errs1) :
    runWorkers isNA M Cov nrow blocks errs = errs1 := by
  induction blocks generalizing errs with
  | nil =>
    simp only [runWorkersThrowing, Except.ok.injEq] at h
    rw [← h]
    rfl
  | cons b bs ih =>
    rw [runWorkersThrowing] at h
    rw [runWorkers_cons]
    unfold runBlock
    cases hw : workerThrowing throws isNA M Cov nrow b with
    | error e =>
      rw [hw] at h
      exact absurd h (by simp)
    | ok v =>
      rw [hw] at h
      rw [workerThrowing_ok hw]
      cases v with
      | some msg => exact ih h
      | none => exact ih h

/-- A run of the body that ends without an exception returns what the
validation of `check_M_and_Cov_body` determines. -/
theorem body_throwing_ok {throws : FaultPoint → Bool} {isNA : Dbl → Bool}
    {parallelize : Nat → Nat → List Block} {M Cov nt : SEXP} {v : Option String}
    (h : check_M_and_Cov_body_throwing throws isNA parallelize M Cov nt = Except.ok v) :
    check_M_and_Cov_body isNA parallelize M Cov nt = Except.ok v := by
  unfold check_M_and_Cov_body_throwing at h
  unfold check_M_and_Cov_body
  cases hM : BoundNumericPointer M with
  | error e =>
    rw [hM] at h
    exact absurd h (by simp)
  | ok m =>
    rw [hM] at h
    cases hC : BoundNumericPointer Cov with
    | error e =>
      rw [hC] at h
      exact absurd h (by simp)
    | ok c =>
      rw [hC] at h
      simp only at h ⊢
      by_cases h1 : m.nrow ≠ c.nrow
      · rw [if_pos h1] at h ⊢
        exact h
      · rw [if_neg h1] at h ⊢
        by_cases h2 : m.ncol ≠ c.ncol
        · rw [if_pos h2] at h ⊢
          exact h
        · rw [if_neg h2] at h ⊢
          cases hN : IntegerVector nt with
          | error e =>
            rw [hN] at h
            exact absurd h (by simp)
          | ok raw_nt =>
            rw [hN] at h
            simp only at h ⊢
            by_cases h3 : raw_nt.length ≠ 1 ∨ raw_nt.headD 0 ≤ 0
            · rw [if_pos h3] at h ⊢
              exact h
            · rw [if_neg h3] at h ⊢
              by_cases h4 : throws FaultPoint.errors = true
              · rw [if_pos h4] at h
                exact absurd h (by simp)
              · rw [if_neg h4] at h
                by_cases h5 : throws FaultPoint.parallelize = true
                · rw [if_pos h5] at h
                  exact absurd h (by simp)
                · rw [if_neg h5] at h
                  cases hr : runWorkersThrowing throws isNA m c m.nrow
                      (parallelize m.ncol (raw_nt.headD 0).toNat)
                      (List.replicate (raw_nt.headD 0).toNat "") with
                  | error e =>
                    rw [hr] at h
                    exact absurd h (by simp)
                  | ok errs =>
                    rw [hr] at h
                    rw [runWorkersThrowing_ok hr]
                    exact h

theorem columnsThrowing_of_no_throw {throws : FaultPoint → Bool} {isNA : Dbl → Bool}
    {M Cov : NumericMatrix} {nrow : Nat} (hno : ∀ p, throws p = false) (cols : List Nat) :
    columnsThrowing throws isNA M Cov nrow cols =
      Except.ok (cols.findSome? fun c =>
        scanColumn isNA nrow (fun r => M.cell r c) (fun r => Cov.cell r c)) := by
  induction cols with
  | nil => rfl
  | cons c cs ih =>
    rw [columnsThrowing, List.findSome?_cons, hno, hno]
    simp only [Bool.false_eq_true, if_false]
    cases scanColumn isNA nrow (fun r => M.cell r c) (fun r => Cov.cell r c) with
    | some msg => rfl
    | none => exact ih

theorem runWorkersThrowing_of_no_throw {throws : FaultPoint → Bool} {isNA : Dbl → Bool}
    {M Cov : NumericMatrix} {nrow : Nat} (hno : ∀ p, throws p = false)
    (blocks : List Block) (errs : List String) :
    runWorkersThrowing throws isNA M Cov nrow blocks errs =
      Except.ok (runWorkers isNA M Cov nrow blocks errs) := by
  induction blocks generalizing errs with
  | nil => rfl
  | cons b bs ih =>
    have hw : workerThrowing throws isNA M Cov nrow b =
        Except.ok (worker isNA M Cov nrow b.start b.length) := by
      unfold workerThrowing worker
      rw [hno, hno, hno]
      simp only [Bool.false_eq_true, if_false]
      exact columnsThrowing_of_no_throw hno _
    rw [runWorkersThrowing, hw, runWorkers_cons]
    unfold runBlock
    cases worker isNA M Cov nrow b.start b.length with
    | some msg => exact ih _
    | none => exact ih _

/-- When no operation throws, the body with every exception is the body. -/
theorem body_throwing_of_no_throw {throws : FaultPoint → Bool} (isNA : Dbl → Bool)
    (parallelize : Nat → Nat → List Block) (M Cov nt : SEXP)
    (hno : ∀ p, throws p = false) :
    check_M_and_Cov_body_throwing throws isNA parallelize M Cov nt =
      check_M_and_Cov_body isNA parallelize M Cov nt := by
  unfold check_M_and_Cov_body_throwing check_M_and_Cov_body
  cases BoundNumericPointer M with
  | error e => rfl
  | ok m =>
    cases BoundNumericPointer Cov with
    | error e => rfl
    | ok c =>
      simp only
      by_cases h1 : m.nrow ≠ c.nrow
      · rw [if_pos h1, if_pos h1]
      · rw [if_neg h1, if_neg h1]
        by_cases h2 : m.ncol ≠ c.ncol
        · rw [if_pos h2, if_pos h2]
        · rw [if_neg h2, if_neg h2]
          cases IntegerVector nt with
          | error e => rfl
          | ok raw_nt =>
            simp only
            by_cases h3 : raw_nt.length ≠ 1 ∨ raw_nt.headD 0 ≤ 0
            · rw [if_pos h3, if_pos h3]
            · rw [if_neg h3, if_neg h3, hno, hno, runWorkersThrowing_of_no_throw hno]
              simp

theorem columnsThrowing_error {throws : FaultPoint → Bool} {isNA : Dbl → Bool}
    {M Cov : NumericMatrix} {nrow : Nat} {cols : List Nat} {col : Nat} (hmem : col ∈ cols)
    (hthrow : throws (FaultPoint.fetch false col) = true ∨
      throws (FaultPoint.fetch true col) = true)
    (hnone : ∀ c ∈ cols,
      scanColumn isNA nrow (fun r => M.cell r c) (fun r => Cov.cell r c) = none) :
    ∃ e, columnsThrowing throws isNA M Cov nrow cols = Except.error e := by
  induction cols with
  | nil => exact absurd hmem (List.not_mem_nil col)
  | cons c cs ih =>
    rw [columnsThrowing]
    by_cases h1 : throws (FaultPoint.fetch false c) = true
    · exact ⟨_, by rw [if_pos h1]⟩
    · by_cases h2 : throws (FaultPoint.fetch true c) = true
      · exact ⟨_, by rw [if_neg h1, if_pos h2]⟩
      · rw [if_neg h1, if_neg h2, hnone c (List.mem_cons_self c cs)]
        apply ih
        · rcases List.mem_cons.mp hmem with heq | hmem2
          · subst heq
            rcases hthrow with h | h
            · exact absurd h h1
            · exact absurd h h2
          · exact hmem2
        · exact fun c1 hc1 => hnone c1 (List.mem_cons_of_mem c hc1)

theorem runWorkersThrowing_error {throws : FaultPoint → Bool} {isNA : Dbl → Bool}
    {M Cov : NumericMatrix} {nrow : Nat} {blocks : List Block} {b : Block} (hb : b ∈ blocks)
    (herr : ∃ e, workerThrowing throws isNA M Cov nrow b = Except.error e)
    (errs : List String) :
    ∃ e, runWorkersThrowing throws isNA M Cov nrow blocks errs = Except.error e := by
  induction blocks generalizing errs with
  | nil => exact absurd hb (List.not_mem_nil b)
  | cons b1 bs ih =>
    rw [runWorkersThrowing]
    cases hw : workerThrowing throws isNA M Cov nrow b1 with
    | error e => exact ⟨e, rfl⟩
    | ok v =>
      have hmem : b ∈ bs := by
        rcases List.mem_cons.mp hb with heq | hmem
        · obtain ⟨e, he⟩ := herr
          rw [heq, hw] at he
          exact absurd he (by simp)
        · exact hmem
      cases v with
      | some msg => exact ih hmem _
      | none => exact ih hmem _

/-- C10, as stated, fails: with two valid matrices, an exception thrown by
the conversion of the worker count, or by the fetch of a column of `Cov`,
reaches `END_RCPP`, which signals an R error: nothing is returned, neither
the null sentinel nor a string. -/
theorem check_M_and_Cov_fault_counterexample :
    (check_M_and_Cov Rcpp_END_RCPP Dbl.isNaN evenSplit (SEXP.matrix exM) (SEXP.matrix exCov)
        SEXP.other = Outcome.signalled Fault.not_compatible ∧
      ∀ res : Option String,
        check_M_and_Cov Rcpp_END_RCPP Dbl.isNaN evenSplit (SEXP.matrix exM)
          (SEXP.matrix exCov) SEXP.other ≠ Outcome.value res) ∧
    (check_M_and_Cov_throwing Rcpp_END_RCPP (fun p => decide (p = FaultPoint.fetch true 1))
        Dbl.isNaN evenSplit (SEXP.matrix exM) (SEXP.matrix exCov) (SEXP.integer [2]) =
      Outcome.signalled (Fault.raised (FaultPoint.fetch true 1)) ∧
      ∀ res : Option String,
        check_M_and_Cov_throwing Rcpp_END_RCPP (fun p => decide (p = FaultPoint.fetch true 1))
          Dbl.isNaN evenSplit (SEXP.matrix exM) (SEXP.matrix exCov) (SEXP.integer [2]) ≠
        Outcome.value res) := by
  have h1 : check_M_and_Cov Rcpp_END_RCPP Dbl.isNaN evenSplit (SEXP.matrix exM)
      (SEXP.matrix exCov) SEXP.other = Outcome.signalled Fault.not_compatible := by decide
  have h2 : check_M_and_Cov_throwing Rcpp_END_RCPP
      (fun p => decide (p = FaultPoint.fetch true 1)) Dbl.isNaN evenSplit (SEXP.matrix exM)
      (SEXP.matrix exCov) (SEXP.integer [2]) =
      Outcome.signalled (Fault.raised (FaultPoint.fetch true 1)) := by decide
  refine ⟨⟨h1, ?_⟩, ⟨h2, ?_⟩⟩
  · intro res h
    rw [h1] at h
    exact Outcome.noConfusion h
  · intro res h
    rw [h2] at h
    exact Outcome.noConfusion h

/-- C10, amended: the outcomes of the validation are returned values, and the
function does not make a returned string of an exception. On a run in which
no operation of the body throws, the function returns the null sentinel or
one string, the one the validation determines. An exception thrown in the
body (a handle that does not bind, a worker count that does not convert, a
failed allocation, launch or extraction) leaves through `END_RCPP`: the
caller observes what `END_RCPP` makes of it, with Rcpp's macro an R error.
Such exceptions do occur after the conversion: a fetch that throws at a
column of some block, in a pair in which no test fires, makes the body
throw. -/
theorem check_M_and_Cov_fault (END_RCPP : Fault → Outcome) (throws : FaultPoint → Bool)
    (isNA : Dbl → Bool) (parallelize : Nat → Nat → List Block) (M Cov nt : SEXP) :
    (∀ v, check_M_and_Cov_body_throwing throws isNA parallelize M Cov nt = Except.ok v →
      check_M_and_Cov_throwing END_RCPP throws isNA parallelize M Cov nt = Outcome.value v ∧
      check_M_and_Cov END_RCPP isNA parallelize M Cov nt = Outcome.value v) ∧
    (∀ e, check_M_and_Cov_body_throwing throws isNA parallelize M Cov nt = Except.error e →
      check_M_and_Cov_throwing END_RCPP throws isNA parallelize M Cov nt = END_RCPP e ∧
      check_M_and_Cov_throwing Rcpp_END_RCPP throws isNA parallelize M Cov nt =
        Outcome.signalled e) ∧
    ((∀ p, throws p = false) →
      check_M_and_Cov_throwing END_RCPP throws isNA parallelize M Cov nt =
        check_M_and_Cov END_RCPP isNA parallelize M Cov nt) ∧
    (∀ (m c : NumericMatrix) (n : Int), M = SEXP.matrix m → Cov = SEXP.matrix c →
      nt = SEXP.integer [n] → 1 ≤ n → m.nrow = c.nrow → m.ncol = c.ncol →
      (∀ b ∈ parallelize m.ncol n.toNat, worker isNA m c m.nrow b.start b.length = none) →
      (∃ b ∈ parallelize m.ncol n.toNat, ∃ col, b.start ≤ col ∧ col < b.start + b.length ∧
        (throws (FaultPoint.fetch false col) = true ∨
          throws (FaultPoint.fetch true col) = true)) →
      ∃ e, check_M_and_Cov_body_throwing throws isNA parallelize M Cov nt =
        Except.error e) := by
  refine ⟨?_, ?_, ?_, ?_⟩
  · intro v h
    constructor
    · unfold check_M_and_Cov_throwing
      rw [h]
    · unfold check_M_and_Cov
      rw [body_throwing_ok h]
  · intro e h
    constructor
    · unfold check_M_and_Cov_throwing
      rw [h]
    · unfold check_M_and_Cov_throwing
      rw [h]
      rfl
  · intro hno
    unfold check_M_and_Cov_throwing check_M_and_Cov
    rw [body_throwing_of_no_throw isNA parallelize M Cov nt hno]
  · intro m c n hM hCov hnt hn hrow hcol hquiet hthrow
    subst hM hCov hnt
    obtain ⟨b, hb, col, h1, h2, h3⟩ := hthrow
    have hr1 : ¬ m.nrow ≠ c.nrow := by simp [hrow]
    have hc1 : ¬ m.ncol ≠ c.ncol := by simp [hcol]
    have hn2 : ¬ (([n] : List Int).length ≠ 1 ∨ ([n] : List Int).headD 0 ≤ 0) := by
      simp only [List.length_singleton, ne_eq, not_true_eq_false, List.headD_cons, false_or]
      omega
    simp only [check_M_and_Cov_body_throwing, BoundNumericPointer, IntegerVector]
    rw [if_neg hr1, if_neg hc1, if_neg hn2]
    simp only [List.headD_cons]
    by_cases he : throws FaultPoint.errors = true
    · exact ⟨_, by rw [if_pos he]⟩
    · by_cases hp : throws FaultPoint.parallelize = true
      · exact ⟨_, by rw [if_neg he, if_pos hp]⟩
      · rw [if_neg he, if_neg hp]
        have hworker : ∃ e, workerThrowing throws isNA m c m.nrow b = Except.error e := by
          unfold workerThrowing
          split_ifs
          · exact ⟨_, rfl⟩
          · exact ⟨_, rfl⟩
          · exact ⟨_, rfl⟩
          · apply columnsThrowing_error (List.mem_range'_1.mpr ⟨h1, h2⟩) h3
            intro c1 hc1
            have hw := hquiet b hb
            unfold worker at hw
            exact List.findSome?_eq_none_iff.mp hw c1 hc1
        obtain ⟨e, he2⟩ := runWorkersThrowing_error hb hworker (List.replicate n.toNat "")
        exact ⟨e, by rw [he2]⟩

/-- C10, amended, at the valid 2 x 3 pair with two workers: when the fetch of
column 1 of `Cov` throws, the body throws; when nothing throws, the function
is the one of the validation. -/
theorem check_M_and_Cov_fault_witness :
    (∃ e, check_M_and_Cov_body_throwing (fun p => decide (p = FaultPoint.fetch true 1))
      Dbl.isNaN evenSplit (SEXP.matrix exM) (SEXP.matrix exCov) (SEXP.integer [2]) =
        Except.error e) ∧
    check_M_and_Cov_throwing Rcpp_END_RCPP (fun _ => false) Dbl.isNaN evenSplit
      (SEXP.matrix exM) (SEXP.matrix exCov) (SEXP.integer [2]) =
      check_M_and_Cov Rcpp_END_RCPP Dbl.isNaN evenSplit (SEXP.matrix exM) (SEXP.matrix exCov)
        (SEXP.integer [2]) :=
  ⟨(check_M_and_Cov_fault Rcpp_END_RCPP (fun p => decide (p = FaultPoint.fetch true 1))
      Dbl.isNaN evenSplit (SEXP.matrix exM) (SEXP.matrix exCov) (SEXP.integer [2])).2.2.2
      exM exCov 2 rfl rfl rfl (by decide) rfl rfl (by decide)
      ⟨⟨0, 0, 2⟩, by decide, 1, by decide, by decide, Or.inr (by decide)⟩,
   (check_M_and_Cov_fault Rcpp_END_RCPP (fun _ => false) Dbl.isNaN evenSplit
      (SEXP.matrix exM) (SEXP.matrix exCov) (SEXP.integer [2])).2.2.1 (fun _ => rfl)⟩

/-! ## Lemmas on the order of the scan -/

/-- The first hit of a search along `start, start + 1, ...`: the value found
is the value at the least index with a value. -/
theorem findSome_range'_eq_some_iff {β : Type} (f : Nat → Option β) (start len : Nat) (b : β) :
    (List.range' start len).findSome? f = some b ↔
      ∃ i, start ≤ i ∧ i < start + len ∧ f i = some b ∧
        ∀ j, start ≤ j → j < i → f j = none := by
  induction len generalizing start with
  | zero =>
    simp only [List.range'_zero, List.findSome?_nil]
    constructor
    · intro h
      exact absurd h (by simp)
    · rintro ⟨i, h1, h2, _⟩
      omega
  | succ n ih =>
    rw [List.range'_succ, List.findSome?_cons]
    cases hs : f start with
    | some v =>
      simp only
      constructor
      · intro h
        exact ⟨start, le_refl _, by omega, by rw [hs, h], fun j h1 h2 => by omega⟩
      · rintro ⟨i, h1, _, h3, h4⟩
        rcases Nat.eq_or_lt_of_le h1 with h5 | h5
        · rw [← h5, hs] at h3
          exact h3
        · rw [h4 start (le_refl _) h5] at hs
          exact absurd hs (by simp)
    | none =>
      simp only
      rw [ih (start + 1)]
      constructor
      · rintro ⟨i, h1, h2, h3, h4⟩
        refine ⟨i, by omega, by omega, h3, ?_⟩
        intro j h5 h6
        rcases Nat.eq_or_lt_of_le h5 with h7 | h7
        · rw [← h7]
          exact hs
        · exact h4 j h7 h6
      · rintro ⟨i, h1, h2, h3, h4⟩
        rcases Nat.eq_or_lt_of_le h1 with h5 | h5
        · rw [← h5, hs] at h3
          exact absurd h3 (by simp)
        · exact ⟨i, h5, by omega, h3, fun j h6 h7 => h4 j (by omega) h7⟩

theorem scanColumn_eq_some_iff {isNA : Dbl → Bool} {nrow : Nat} {M_ptr Cov_ptr : Nat → Dbl}
    {msg : String} :
    scanColumn isNA nrow M_ptr Cov_ptr = some msg ↔
      ∃ r, r < nrow ∧ checkCell isNA (M_ptr r) (Cov_ptr r) = some msg ∧
        ∀ r1, r1 < r → checkCell isNA (M_ptr r1) (Cov_ptr r1) = none := by
  unfold scanColumn
  rw [List.range_eq_range', findSome_range'_eq_some_iff]
  constructor
  · rintro ⟨r, _, h2, h3, h4⟩
    exact ⟨r, by omega, h3, fun r1 h => h4 r1 (Nat.zero_le _) h⟩
  · rintro ⟨r, h2, h3, h4⟩
    exact ⟨r, Nat.zero_le _, by omega, h3, fun r1 _ h => h4 r1 h⟩

theorem scanColumn_eq_none_iff {isNA : Dbl → Bool} {nrow : Nat} {M_ptr Cov_ptr : Nat → Dbl} :
    scanColumn isNA nrow M_ptr Cov_ptr = none ↔
      ∀ r, r < nrow → checkCell isNA (M_ptr r) (Cov_ptr r) = none := by
  simp [scanColumn, List.mem_range]

/-- The worker records `msg` exactly when `msg` is the message of the first
cell of its block, in column-major order, at which a test fires. -/
theorem worker_eq_some_iff {isNA : Dbl → Bool} {M Cov : NumericMatrix} {nrow start len : Nat}
    {msg : String} :
    worker isNA M Cov nrow start len = some msg ↔
      ∃ c r, FirstFiring isNA M Cov nrow start len c r msg := by
  unfold worker FirstFiring
  rw [findSome_range'_eq_some_iff]
  constructor
  · rintro ⟨c, h1, h2, h3, h4⟩
    obtain ⟨r, h5, h6, h7⟩ := scanColumn_eq_some_iff.mp h3
    refine ⟨c, r, h1, h2, h5, h6, ?_⟩
    intro c1 h8 _ r1 h10 hb
    rcases hb with hb | ⟨hb1, hb2⟩
    · exact scanColumn_eq_none_iff.mp (h4 c1 h8 hb) r1 h10
    · rw [hb1]
      exact h7 r1 hb2
  · rintro ⟨c, r, h1, h2, h3, h4, h5⟩
    refine ⟨c, h1, h2, ?_, ?_⟩
    · exact scanColumn_eq_some_iff.mpr
        ⟨r, h3, h4, fun r1 h => h5 c h1 (le_refl _) r1 (by omega) (Or.inr ⟨rfl, h⟩)⟩
    · intro c1 h6 h7
      exact scanColumn_eq_none_iff.mpr fun r1 h => h5 c1 h6 (by omega) r1 h (Or.inl h7)

theorem checkCell_eq_firstApplicable (isNA : Dbl → Bool) (m c : Dbl) :
    checkCell isNA m c = firstApplicable isNA m c := by
  unfold checkCell firstApplicable checksInOrder
  cases h1 : isNA m <;> cases h2 : isNA c <;> cases h3 : Dbl.lt m zero <;>
    cases h4 : Dbl.gt m c <;> cases h5 : R_FINITE c <;> simp [List.find?_cons]
/-! ## C11: the order of the tests and the early stop -/

/-- C11: a worker goes through the cells of its block in column-major order
and records the message of the first cell at which a test fires, that message
being the one of the first check that applies in the order `M` missing, `Cov`
missing, `M < 0`, `M > Cov`, `Cov` not finite; no cell after that one has any
influence on what is recorded. A cell with `M` and `Cov` both missing gives
the message on `M`; `M = -1` with `Cov = -2` gives the message on negative
values. -/
theorem worker_order_and_stop (isNA : Dbl → Bool) (M Cov : NumericMatrix)
    (nrow start len : Nat) :
    (∀ m c, checkCell isNA m c = firstApplicable isNA m c) ∧
    (∀ msg, worker isNA M Cov nrow start len = some msg ↔
      ∃ c r, FirstFiring isNA M Cov nrow start len c r msg) ∧
    (worker isNA M Cov nrow start len = none ↔
      ∀ c, start ≤ c → c < start + len → ∀ r, r < nrow →
        checkCell isNA (M.cell r c) (Cov.cell r c) = none) ∧
    (∀ c r msg, FirstFiring isNA M Cov nrow start len c r msg →
      ∀ M1 Cov1 : NumericMatrix,
        (∀ c1 r1, start ≤ c1 → r1 < nrow → Before c1 r1 c r ∨ (c1 = c ∧ r1 = r) →
          M1.cell r1 c1 = M.cell r1 c1 ∧ Cov1.cell r1 c1 = Cov.cell r1 c1) →
        worker isNA M1 Cov1 nrow start len = some msg) ∧
    (∀ m c, isNA m = true → isNA c = true → checkCell isNA m c = some msgMNA) ∧
    (isNA (Dbl.fin (-1)) = false → isNA (Dbl.fin (-2)) = false →
      checkCell isNA (Dbl.fin (-1)) (Dbl.fin (-2)) = some msgMNeg) := by
  refine ⟨checkCell_eq_firstApplicable isNA, fun msg => worker_eq_some_iff,
    worker_eq_none_iff, ?_, ?_, ?_⟩
  · intro c r msg hfirst M1 Cov1 hsame
    apply worker_eq_some_iff.mpr
    obtain ⟨h1, h2, h3, h4, h5⟩ := hfirst
    refine ⟨c, r, h1, h2, h3, ?_, ?_⟩
    · rw [(hsame c r h1 h3 (Or.inr ⟨rfl, rfl⟩)).1, (hsame c r h1 h3 (Or.inr ⟨rfl, rfl⟩)).2]
      exact h4
    · intro c1 h6 h7 r1 h8 hb
      rw [(hsame c1 r1 h6 h8 (Or.inl hb)).1, (hsame c1 r1 h6 h8 (Or.inl hb)).2]
      exact h5 c1 h6 h7 r1 h8 hb
  · intro m c hm _
    simp [checkCell, hm]
  · intro h1 h2
    simp [checkCell, h1, h2, Dbl.lt, zero]

/-- C11 on the 2 x 3 example with three violations: the worker of the block
of all columns records the message on negative values, found at row 0 of
column 1, and still does when every later cell is made valid. -/
theorem worker_order_and_stop_witness :
    worker Dbl.isNaN exBadM exCov 2 0 3 = some msgMNeg ∧
    worker Dbl.isNaN (exM.inject 0 1 (Dbl.fin (-1))) exCov 2 0 3 = some msgMNeg ∧
    checkCell Dbl.isNaN (Dbl.fin (-1)) (Dbl.fin (-2)) = some msgMNeg :=
  ⟨((worker_order_and_stop Dbl.isNaN exBadM exCov 2 0 3).2.1 msgMNeg).mpr
      ⟨1, 0, by decide⟩,
   (worker_order_and_stop Dbl.isNaN exBadM exCov 2 0 3).2.2.2.1 1 0 msgMNeg (by decide)
      (exM.inject 0 1 (Dbl.fin (-1))) exCov (by
        intro c1 r1 _ hr h
        rcases h with h | ⟨h1, h2⟩
        · rcases h with h | ⟨h1, h2⟩
          · have hc : c1 = 0 := by omega
            subst hc
            match r1, hr with
            | 0, _ => exact ⟨rfl, rfl⟩
            | 1, _ => exact ⟨rfl, rfl⟩
          · omega
        · subst h1 h2
          exact ⟨rfl, rfl⟩),
   (worker_order_and_stop Dbl.isNaN exBadM exCov 2 0 3).2.2.2.2.2 rfl rfl⟩

/-! ## C12: the message returned is the one of the first non-empty slot -/

theorem firstError_cons (e : String) (es : List String) :
    firstError (e :: es) = if e = "" then firstError es else some e := by
  unfold firstError
  rw [List.find?_cons]
  by_cases h : e = ""
  · subst h
    simp
  · have hb : (e == "") = false := by simpa using h
    simp [hb, h]

/-- The scan of lines 82-86 returns `msg` exactly when `msg` is the content of
the non-empty slot of least index. -/
theorem firstError_eq_some_iff {errs : List String} {msg : String} :
    firstError errs = some msg ↔
      ∃ i : Nat, errs[i]? = some msg ∧ msg ≠ "" ∧ ∀ j : Nat, j < i → errs[j]? = some "" := by
  induction errs with
  | nil => simp [firstError]
  | cons e es ih =>
    rw [firstError_cons]
    by_cases he : e = ""
    · rw [if_pos he, ih]
      constructor
      · rintro ⟨i, h1, h2, h3⟩
        refine ⟨i + 1, by simpa using h1, h2, ?_⟩
        intro j hj
        cases j with
        | zero => simp [he]
        | succ k => simpa using h3 k (by omega)
      · rintro ⟨i, h1, h2, h3⟩
        cases i with
        | zero =>
          simp only [List.getElem?_cons_zero, Option.some.injEq] at h1
          exact absurd (h1 ▸ he) h2
        | succ k =>
          refine ⟨k, by simpa using h1, h2, ?_⟩
          intro j hj
          simpa using h3 (j + 1) (by omega)
    · rw [if_neg he]
      constructor
      · intro h
        have h1 : e = msg := Option.some.inj h
        exact ⟨0, by simp [h1], h1 ▸ he, fun j hj => by omega⟩
      · rintro ⟨i, h1, _, h3⟩
        cases i with
        | zero => simpa using h1
        | succ k =>
          have := h3 0 (by omega)
          simp only [List.getElem?_cons_zero, Option.some.injEq] at this
          exact absurd this he

/-- C12: for two matrices of equal shape and a worker count `n >= 1`, with
`errors` the vector of the `n` slots once every worker has run, the function
returns the message `msg` exactly when `msg` is the content of the non-empty
slot of least index among `0 .. n - 1`, and the null sentinel exactly when
every slot is empty. -/
theorem check_M_and_Cov_aggregation (END_RCPP : Fault → Outcome) (isNA : Dbl → Bool)
    (parallelize : Nat → Nat → List Block) (M Cov : NumericMatrix) (n : Int)
    (errors : List String)
    (hrow : M.nrow = Cov.nrow) (hcol : M.ncol = Cov.ncol) (hn : 1 ≤ n)
    (herr : errors = runWorkers isNA M Cov M.nrow (parallelize M.ncol n.toNat)
      (List.replicate n.toNat "")) :
    errors.length = n.toNat ∧
    (∀ msg, check_M_and_Cov END_RCPP isNA parallelize (SEXP.matrix M) (SEXP.matrix Cov)
        (SEXP.integer [n]) = Outcome.value (some msg) ↔
      ∃ i : Nat, i < n.toNat ∧ errors[i]? = some msg ∧ msg ≠ "" ∧
        ∀ j : Nat, j < i → errors[j]? = some "") ∧
    (check_M_and_Cov END_RCPP isNA parallelize (SEXP.matrix M) (SEXP.matrix Cov)
        (SEXP.integer [n]) = Outcome.value none ↔
      ∀ i : Nat, i < n.toNat → errors[i]? = some "") := by
  have hlen : errors.length = n.toNat := by
    rw [herr, runWorkers_length, List.length_replicate]
  rw [check_M_and_Cov_scan END_RCPP isNA parallelize M Cov n hrow hcol hn, ← herr]
  refine ⟨hlen, ?_, ?_⟩
  · intro msg
    constructor
    · intro h
      obtain ⟨i, h1, h2, h3⟩ := firstError_eq_some_iff.mp (Outcome.value.inj h)
      have hi : i < errors.length := by
        by_contra hge
        rw [List.getElem?_eq_none (by omega)] at h1
        exact absurd h1 (by simp)
      exact ⟨i, hlen ▸ hi, h1, h2, h3⟩
    · rintro ⟨i, _, h1, h2, h3⟩
      rw [firstError_eq_some_iff.mpr ⟨i, h1, h2, h3⟩]
  · constructor
    · intro h i hi
      have hnone := (firstError_eq_none_iff errors).mp (Outcome.value.inj h)
      have hi2 : i < errors.length := hlen ▸ hi
      rw [List.getElem?_eq_getElem hi2, hnone _ (List.getElem_mem hi2)]
    · intro h
      have : firstError errors = none := by
        rw [firstError_eq_none_iff]
        intro e he
        obtain ⟨i, hi, hie⟩ := List.mem_iff_getElem.mp he
        have h2 := h i (hlen ▸ hi)
        rw [List.getElem?_eq_getElem hi, hie] at h2
        exact Option.some.inj h2
      rw [this]

/-- C12 on the 2 x 3 example with three violations and three workers, one
column each: slot 0 is empty, slot 1 holds the message on negative values and
slot 2 the message on `M > Cov`; the function returns the content of slot 1. -/
theorem check_M_and_Cov_aggregation_witness :
    check_M_and_Cov Rcpp_END_RCPP Dbl.isNaN evenSplit (SEXP.matrix exBadM) (SEXP.matrix exCov)
        (SEXP.integer [3]) = Outcome.value (some msgMNeg) :=
  ((check_M_and_Cov_aggregation Rcpp_END_RCPP Dbl.isNaN evenSplit exBadM exCov 3
      ["", msgMNeg, msgMGtCov] rfl rfl (by decide) (by decide)).2.1 msgMNeg).mpr
    ⟨1, by decide, by decide, by decide, by decide⟩

/-! ## C13: the slots after the parallel phase -/

/-- A property of the initial content of slot `t` and of every message
written to slot `t` holds of the content of slot `t` at the end. -/
theorem runWorkers_slot_forall {isNA : Dbl → Bool} {M Cov : NumericMatrix} {nrow : Nat}
    (P : String → Prop) (t : Nat) (blocks : List Block) (errs : List String)
    (hw : ∀ b ∈ blocks, b.tid = t → ∀ msg,
      worker isNA M Cov nrow b.start b.length = some msg → P msg)
    (he : ∀ e, errs[t]? = some e → P e) :
    ∀ e, (runWorkers isNA M Cov nrow blocks errs)[t]? = some e → P e := by
  induction blocks generalizing errs with
  | nil => exact he
  | cons b bs ih =>
    rw [runWorkers_cons]
    apply ih
    · exact fun b1 hb1 => hw b1 (List.mem_cons_of_mem b hb1)
    · intro e hget
      unfold runBlock at hget
      split at hget
      next msg hmsg =>
        rw [List.getElem?_set] at hget
        split at hget
        next heq =>
          split at hget
          · rw [← Option.some.inj hget]
            exact hw b (List.mem_cons_self b bs) heq msg hmsg
          · exact absurd hget (by simp)
        next => exact he e hget
      next => exact he e hget

theorem slotWrites_cons {isNA : Dbl → Bool} {M Cov : NumericMatrix} {nrow : Nat}
    (b : Block) (bs : List Block) :
    slotWrites isNA M Cov nrow (b :: bs) =
      match worker isNA M Cov nrow b.start b.length with
      | some msg => (b.tid, msg) :: slotWrites isNA M Cov nrow bs
      | none => slotWrites isNA M Cov nrow bs := by
  unfold slotWrites
  rw [List.filterMap_cons]
  cases worker isNA M Cov nrow b.start b.length <;> rfl

/-- The vector of messages is the initial one with the assignments of
`slotWrites` made in turn. -/
theorem runWorkers_eq_foldl_slotWrites {isNA : Dbl → Bool} {M Cov : NumericMatrix} {nrow : Nat}
    (blocks : List Block) (errs : List String) :
    runWorkers isNA M Cov nrow blocks errs =
      (slotWrites isNA M Cov nrow blocks).foldl (fun e w => e.set w.1 w.2) errs := by
  induction blocks generalizing errs with
  | nil => rfl
  | cons b bs ih =>
    rw [runWorkers_cons, slotWrites_cons, ih]
    unfold runBlock
    cases worker isNA M Cov nrow b.start b.length <;> rfl

theorem slotWrites_countP_le {isNA : Dbl → Bool} {M Cov : NumericMatrix} {nrow : Nat}
    (blocks : List Block) (t : Nat) :
    (slotWrites isNA M Cov nrow blocks).countP (fun w => w.1 == t) ≤
      (blocks.map Block.tid).count t := by
  induction blocks with
  | nil => simp [slotWrites]
  | cons b bs ih =>
    rw [slotWrites_cons, List.map_cons, List.count_cons]
    cases worker isNA M Cov nrow b.start b.length with
    | none =>
      simp only
      omega
    | some msg =>
      simp only [List.countP_cons]
      omega

theorem countP_set_le (p : String → Bool) (l : List String) (i : Nat) (a : String) :
    (l.set i a).countP p ≤ l.countP p + 1 := by
  by_cases h : i < l.length
  · rw [List.countP_set p l i a h]
    split <;> split <;> omega
  · rw [List.set_eq_of_length_le (by omega)]
    omega

/-- The number of non-empty slots grows by at most one for each worker that
finds something. -/
theorem runWorkers_countP_le {isNA : Dbl → Bool} {M Cov : NumericMatrix} {nrow : Nat}
    (blocks : List Block) (errs : List String) :
    (runWorkers isNA M Cov nrow blocks errs).countP (fun e => e != "") ≤
      errs.countP (fun e => e != "") +
        blocks.countP (fun b => (worker isNA M Cov nrow b.start b.length).isSome) := by
  induction blocks generalizing errs with
  | nil => simp [runWorkers]
  | cons b bs ih =>
    rw [runWorkers_cons, List.countP_cons]
    refine le_trans (ih _) ?_
    unfold runBlock
    cases worker isNA M Cov nrow b.start b.length with
    | none => simp
    | some msg =>
      have := countP_set_le (fun e => e != "") errs b.tid msg
      simp only [Option.isSome_some, if_true]
      omega

theorem worker_of_no_violation {isNA : Dbl → Bool} {M Cov : NumericMatrix} {nrow : Nat}
    {b : Block} (h : blockHasViolation isNA M Cov nrow b = false) :
    worker isNA M Cov nrow b.start b.length = none := by
  rw [worker_eq_none_iff]
  intro c h1 h2 r hr
  apply checkCell_of_valid
  by_contra hbad
  have : blockHasViolation isNA M Cov nrow b = true := by
    unfold blockHasViolation
    rw [List.any_eq_true]
    refine ⟨c, List.mem_range'_1.mpr ⟨h1, h2⟩, ?_⟩
    rw [List.any_eq_true]
    exact ⟨r, List.mem_range.mpr hr, by simpa using hbad⟩
  rw [h] at this
  exact absurd this (by simp)

/-- C13: when each worker has a slot of its own, after the parallel phase no
slot has been assigned more than once, a worker whose block has no violating
cell has left its slot empty, and the number of non-empty slots is at most the
number of blocks that contain a violating cell. -/
theorem errors_slot_invariant (isNA : Dbl → Bool) (M Cov : NumericMatrix)
    (blocks : List Block) (k : Nat) (errors : List String)
    (hown : OwnSlots blocks k)
    (herr : errors = runWorkers isNA M Cov M.nrow blocks (List.replicate k "")) :
    errors = (slotWrites isNA M Cov M.nrow blocks).foldl (fun e w => e.set w.1 w.2)
      (List.replicate k "") ∧
    (∀ t, (slotWrites isNA M Cov M.nrow blocks).countP (fun w => w.1 == t) ≤ 1) ∧
    (∀ b ∈ blocks, blockHasViolation isNA M Cov M.nrow b = false →
      errors[b.tid]? = some "") ∧
    errors.countP (fun e => e != "") ≤
      blocks.countP (blockHasViolation isNA M Cov M.nrow) := by
  obtain ⟨hnodup, hslot⟩ := hown
  refine ⟨?_, ?_, ?_, ?_⟩
  · rw [herr, runWorkers_eq_foldl_slotWrites]
  · intro t
    exact le_trans (slotWrites_countP_le blocks t) (List.nodup_iff_count_le_one.mp hnodup t)
  · intro b hb hclean
    have hlen : b.tid < errors.length := by
      rw [herr, runWorkers_length, List.length_replicate]
      exact hslot b hb
    rw [List.getElem?_eq_getElem hlen]
    congr 1
    have hP := @runWorkers_slot_forall isNA M Cov M.nrow (fun e => e = "") b.tid blocks
      (List.replicate k "") ?_ ?_ errors[b.tid]
      (by rw [← herr, List.getElem?_eq_getElem hlen])
    · exact hP
    · intro b1 hb1 heq msg hmsg
      have : b1 = b := List.inj_on_of_nodup_map hnodup hb1 hb heq
      rw [this, worker_of_no_violation hclean] at hmsg
      exact absurd hmsg (by simp)
    · intro e he
      rw [List.getElem?_replicate] at he
      split at he
      · exact (Option.some.inj he).symm
      · exact absurd he (by simp)
  · have h1 := @runWorkers_countP_le isNA M Cov M.nrow blocks (List.replicate k "")
    rw [← herr] at h1
    have h2 : (List.replicate k "").countP (fun e => e != "") = 0 := by
      rw [List.countP_eq_zero]
      intro a ha
      simp [(List.mem_replicate.mp ha).2]
    have h3 : blocks.countP (fun b => (worker isNA M Cov M.nrow b.start b.length).isSome) ≤
        blocks.countP (blockHasViolation isNA M Cov M.nrow) := by
      apply List.countP_mono_left
      intro b _ hsome
      by_contra hno
      have hfalse : blockHasViolation isNA M Cov M.nrow b = false := by simpa using hno
      rw [worker_of_no_violation hfalse] at hsome
      exact absurd hsome (by simp)
    omega

/-- C13 on the 2 x 3 example with three violations and three workers, one
column each: the first column is valid and slot 0 is empty; two slots are
non-empty, and two blocks contain a violating cell. -/
theorem errors_slot_invariant_witness :
    (["", msgMNeg, msgMGtCov] : List String)[0]? = some "" ∧
    (["", msgMNeg, msgMGtCov] : List String).countP (fun e => e != "") ≤
      (evenSplit 3 3).countP (blockHasViolation Dbl.isNaN exBadM exCov 2) :=
  ⟨(errors_slot_invariant Dbl.isNaN exBadM exCov (evenSplit 3 3) 3 ["", msgMNeg, msgMGtCov]
      (by decide) (by decide)).2.2.1 ⟨0, 0, 1⟩ (by decide) (by decide),
   (errors_slot_invariant Dbl.isNaN exBadM exCov (evenSplit 3 3) 3 ["", msgMNeg, msgMGtCov]
      (by decide) (by decide)).2.2.2⟩

/-! ## C14: many workers against one -/

theorem findSome_flatMap {α β γ : Type} (f : β → Option γ) (g : α → List β) (l : List α) :
    (l.flatMap g).findSome? f = l.findSome? fun a => (g a).findSome? f := by
  induction l with
  | nil => rfl
  | cons a l ih =>
    rw [List.flatMap_cons, List.findSome?_append, List.findSome?_cons, ih]
    cases (g a).findSome? f <;> rfl

/-- The scan of one worker over all the columns is the sequential result. -/
theorem worker_all_eq_sequentialResult (isNA : Dbl → Bool) (M Cov : NumericMatrix) :
    worker isNA M Cov M.nrow 0 M.ncol = sequentialResult isNA M Cov := by
  unfold sequentialResult cellsColumnMajor worker scanColumn
  rw [findSome_flatMap, ← List.range_eq_range']
  congr 1
  funext c
  rw [List.findSome?_map]
  congr 1
  funext r
  exact checkCell_eq_firstApplicable isNA _ _

/-- A slot that some worker writes `msg` to, and that no worker writes
anything else to, holds `msg` at the end. -/
theorem runWorkers_slot_written {isNA : Dbl → Bool} {M Cov : NumericMatrix} {nrow : Nat}
    (t : Nat) (msg : String) (blocks : List Block) (errs : List String)
    (hlen : t < errs.length)
    (hw : ∀ b ∈ blocks, b.tid = t → ∀ m,
      worker isNA M Cov nrow b.start b.length = some m → m = msg)
    (h : (∃ b ∈ blocks, b.tid = t ∧ worker isNA M Cov nrow b.start b.length ≠ none) ∨
      errs[t]? = some msg) :
    (runWorkers isNA M Cov nrow blocks errs)[t]? = some msg := by
  induction blocks generalizing errs with
  | nil =>
    rcases h with ⟨b, hb, _⟩ | h
    · exact absurd hb (List.not_mem_nil b)
    · exact h
  | cons b bs ih =>
    rw [runWorkers_cons]
    apply ih
    · rw [runBlock_length]
      exact hlen
    · exact fun b1 hb1 => hw b1 (List.mem_cons_of_mem b hb1)
    · by_cases hb : b.tid = t ∧ worker isNA M Cov nrow b.start b.length ≠ none
      · right
        obtain ⟨h1, h2⟩ := hb
        unfold runBlock
        cases hm : worker isNA M Cov nrow b.start b.length with
        | none => exact absurd hm h2
        | some m =>
          simp only
          rw [List.getElem?_set, if_pos h1, if_pos (h1 ▸ hlen),
            hw b (List.mem_cons_self b bs) h1 m hm]
      · rcases h with ⟨b1, hb1, h1, h2⟩ | h
        · rcases List.mem_cons.mp hb1 with heq | hmem
          · exact absurd ⟨heq ▸ h1, heq ▸ h2⟩ hb
          · exact Or.inl ⟨b1, hmem, h1, h2⟩
        · right
          unfold runBlock
          cases hm : worker isNA M Cov nrow b.start b.length with
          | none => exact h
          | some m =>
            simp only
            rw [List.getElem?_set]
            split
            next heq =>
              exact absurd ⟨heq, by rw [hm]; simp⟩ hb
            next => exact h

/-- With worker indices that follow the columns, the message reported is the
one a single worker scanning every column would record. -/
theorem scan_of_ordered {isNA : Dbl → Bool} {M Cov : NumericMatrix} {blocks : List Block}
    {k : Nat} (hsplit : OrderedSplit blocks M.ncol k) :
    firstError (runWorkers isNA M Cov M.nrow blocks (List.replicate k "")) =
      worker isNA M Cov M.nrow 0 M.ncol := by
  obtain ⟨⟨hin, hcov, hslot⟩, hown, hord⟩ := hsplit
  cases hall : worker isNA M Cov M.nrow 0 M.ncol with
  | none =>
    apply scan_of_all_none k hin
    intro r hr c hc
    exact worker_eq_none_iff.mp hall c (Nat.zero_le _) (by omega) r hr
  | some msg =>
    obtain ⟨c0, r0, _, h2, h3, h4, h5⟩ := worker_eq_some_iff.mp hall
    have hc0 : c0 < M.ncol := by omega
    obtain ⟨b0, hb0, hs0, he0⟩ := hcov c0 hc0
    have hw0 : worker isNA M Cov M.nrow b0.start b0.length = some msg :=
      worker_eq_some_iff.mpr ⟨c0, r0, hs0, he0, h3, h4,
        fun c1 _ h7 r1 h8 hb => h5 c1 (Nat.zero_le _) h7 r1 h8 hb⟩
    rw [firstError_eq_some_iff]
    refine ⟨b0.tid, ?_, checkCell_ne_empty h4, ?_⟩
    · apply runWorkers_slot_written
      · simpa using hslot b0 hb0
      · intro b hb heq m hm
        rw [hown b hb b0 hb0 heq, hw0] at hm
        exact (Option.some.inj hm).symm
      · exact Or.inl ⟨b0, hb0, rfl, by rw [hw0]; simp⟩
    · intro j hj
      have hlen : j < (runWorkers isNA M Cov M.nrow blocks (List.replicate k "")).length := by
        rw [runWorkers_length, List.length_replicate]
        exact lt_trans hj (hslot b0 hb0)
      rw [List.getElem?_eq_getElem hlen]
      congr 1
      apply runWorkers_slot_forall (fun e => e = "") j blocks (List.replicate k "") ?_ ?_ _
        (List.getElem?_eq_getElem hlen)
      · intro b hb heq m hm
        have hleft : b.start + b.length ≤ b0.start := hord b hb b0 hb0 (heq ▸ hj)
        have hnone : worker isNA M Cov M.nrow b.start b.length = none := by
          rw [worker_eq_none_iff]
          intro c h6 h7 r hr
          exact h5 c (Nat.zero_le _) (by omega) r hr (Or.inl (by omega))
        rw [hnone] at hm
        exact absurd hm (by simp)
      · intro e he
        rw [List.getElem?_replicate] at he
        split at he
        · exact (Option.some.inj he).symm
        · exact absurd he (by simp)

theorem oneBlock_ordered (ncol : Nat) : OrderedSplit (oneBlock ncol 1) ncol 1 := by
  unfold OrderedSplit IsSplit Within Covers SlotsIn oneBlock
  simp

/-- C14: for two matrices of equal shape, with any number of violating cells,
and a worker count `n >= 1`, when the blocks split the columns, each with a
worker index of its own, and the worker indices follow the columns, the
function returns what it returns with a single worker on all the columns: the
message of the first applicable check at the first cell, in column-major
order of the whole matrix, at which a check applies, or the null sentinel if
there is none. -/
theorem check_M_and_Cov_many_eq_one (END_RCPP : Fault → Outcome) (isNA : Dbl → Bool)
    (parallelize : Nat → Nat → List Block) (M Cov : NumericMatrix) (n : Int)
    (hrow : M.nrow = Cov.nrow) (hcol : M.ncol = Cov.ncol) (hn : 1 ≤ n)
    (hsplit : OrderedSplit (parallelize M.ncol n.toNat) M.ncol n.toNat) :
    check_M_and_Cov END_RCPP isNA parallelize (SEXP.matrix M) (SEXP.matrix Cov)
        (SEXP.integer [n]) =
      check_M_and_Cov END_RCPP isNA oneBlock (SEXP.matrix M) (SEXP.matrix Cov)
        (SEXP.integer [1]) ∧
    check_M_and_Cov END_RCPP isNA parallelize (SEXP.matrix M) (SEXP.matrix Cov)
        (SEXP.integer [n]) = Outcome.value (sequentialResult isNA M Cov) := by
  have h1 := check_M_and_Cov_scan END_RCPP isNA parallelize M Cov n hrow hcol hn
  have h2 := check_M_and_Cov_scan END_RCPP isNA oneBlock M Cov 1 hrow hcol (le_refl 1)
  rw [scan_of_ordered hsplit, worker_all_eq_sequentialResult] at h1
  have h3 : firstError (runWorkers isNA M Cov M.nrow (oneBlock M.ncol (1 : Int).toNat)
      (List.replicate (1 : Int).toNat "")) = worker isNA M Cov M.nrow 0 M.ncol :=
    scan_of_ordered (oneBlock_ordered M.ncol)
  rw [h3, worker_all_eq_sequentialResult] at h2
  rw [h1, h2]
  exact ⟨rfl, rfl⟩

/-- C14 on the 2 x 3 example with three violations: with three workers, one
column each, the function returns what one worker returns, the message on
negative values found at row 0 of column 1. -/
theorem check_M_and_Cov_many_eq_one_witness :
    check_M_and_Cov Rcpp_END_RCPP Dbl.isNaN evenSplit (SEXP.matrix exBadM) (SEXP.matrix exCov)
        (SEXP.integer [3]) =
      check_M_and_Cov Rcpp_END_RCPP Dbl.isNaN oneBlock (SEXP.matrix exBadM) (SEXP.matrix exCov)
        (SEXP.integer [1]) :=
  (check_M_and_Cov_many_eq_one Rcpp_END_RCPP Dbl.isNaN evenSplit exBadM exCov 3 rfl rfl
    (by decide) (by decide)).1

/-- The order of the worker indices cannot be dropped from C14: with worker
indices that go against the columns, the function reports the violation of
the last column, not the first one of the matrix. -/
theorem backward_split_reports_a_later_violation :
    check_M_and_Cov Rcpp_END_RCPP Dbl.isNaN backwardSplit (SEXP.matrix exBadM)
        (SEXP.matrix exCov) (SEXP.integer [2]) = Outcome.value (some msgMGtCov) ∧
    check_M_and_Cov Rcpp_END_RCPP Dbl.isNaN oneBlock (SEXP.matrix exBadM)
        (SEXP.matrix exCov) (SEXP.integer [1]) = Outcome.value (some msgMNeg) ∧
    IsSplit (backwardSplit 3 2) 3 2 := by
  decide
/-! ## C15: a coverage of minus infinity -/

/-- What the message on finiteness says about the cell at which it arises. -/
theorem checkCell_eq_msgCovFinite {isNA : Dbl → Bool}
    (hnan : ∀ x, Dbl.isNaN x = true → isNA x = true) {m c : Dbl}
    (h : checkCell isNA m c = some msgCovFinite) :
    isNA m = false ∧ Dbl.le zero m = true ∧ Dbl.gt m c = false ∧ isNA c = false ∧
      R_FINITE c = false := by
  have hna := hnan Dbl.na rfl
  have hnn := hnan Dbl.nan rfl
  unfold checkCell at h
  split_ifs at h with h1 h2 h3 h4 h5
  · exact absurd (Option.some.inj h) (by decide)
  · exact absurd (Option.some.inj h) (by decide)
  · exact absurd (Option.some.inj h) (by decide)
  · exact absurd (Option.some.inj h) (by decide)
  · cases m <;> cases c <;>
      simp_all [Dbl.le, Dbl.lt, Dbl.gt, R_FINITE, zero]

/-- A message returned by the function was recorded by the worker of some
block. -/
theorem scan_eq_some_of_worker {isNA : Dbl → Bool} {M Cov : NumericMatrix} {nrow k : Nat}
    {blocks : List Block} {msg : String}
    (h : firstError (runWorkers isNA M Cov nrow blocks (List.replicate k "")) = some msg) :
    ∃ b ∈ blocks, worker isNA M Cov nrow b.start b.length = some msg := by
  obtain ⟨hmem, hne⟩ := firstError_eq_some h
  have hP := runWorkers_forall
    (fun e => e = "" ∨ ∃ b ∈ blocks, worker isNA M Cov nrow b.start b.length = some e)
    blocks (List.replicate k "") (fun b hb m hm => Or.inr ⟨b, hb, hm⟩)
    (fun e he => Or.inl (List.mem_replicate.mp he).2) msg hmem
  rcases hP with h1 | h1
  · exact absurd h1 hne
  · exact h1

/-- C15: in a valid pair of equal shape, setting `Cov[r,c]` to `-Infinity`
(which `isNA` does not call missing) while `M[r,c]` stays as it is makes the
result the message "All values of 'M' must be less than or equal to the
corresponding value of 'Cov'.", not the message on finiteness, for every
cell, every worker count `n >= 1` and every split. And whenever the function
returns the message on finiteness for a pair of equal shape, the first cell
at which a test fires in the block of some worker has `M` not missing,
`M >= 0`, not `M > Cov`, `Cov` not missing and `Cov` not finite. `isNA` is
taken to be true of every NaN, as in C2. -/
theorem check_M_and_Cov_Cov_neg_infinite (END_RCPP : Fault → Outcome) (isNA : Dbl → Bool)
    (parallelize : Nat → Nat → List Block) (M Cov : NumericMatrix) (n : Int)
    (r c : Nat) (hnan : ∀ x, Dbl.isNaN x = true → isNA x = true)
    (hrow : M.nrow = Cov.nrow) (hcol : M.ncol = Cov.ncol) (hn : 1 ≤ n)
    (hvalid : ValidPair isNA M Cov) (hr : r < M.nrow) (hc : c < M.ncol)
    (hsplit : IsSplit (parallelize M.ncol n.toNat) M.ncol n.toNat)
    (hninf : isNA Dbl.ninf = false) :
    (check_M_and_Cov END_RCPP isNA parallelize (SEXP.matrix M)
        (SEXP.matrix (Cov.inject r c Dbl.ninf)) (SEXP.integer [n]) =
      Outcome.value (some
        "All values of 'M' must be less than or equal to the corresponding value of 'Cov'.") ∧
     check_M_and_Cov END_RCPP isNA parallelize (SEXP.matrix M)
        (SEXP.matrix (Cov.inject r c Dbl.ninf)) (SEXP.integer [n]) ≠
      Outcome.value (some "All values of 'Cov' must be finite.")) ∧
    (∀ (M1 Cov1 : NumericMatrix) (n1 : Int), M1.nrow = Cov1.nrow → M1.ncol = Cov1.ncol →
      1 ≤ n1 →
      check_M_and_Cov END_RCPP isNA parallelize (SEXP.matrix M1) (SEXP.matrix Cov1)
        (SEXP.integer [n1]) = Outcome.value (some "All values of 'Cov' must be finite.") →
      ∃ b ∈ parallelize M1.ncol n1.toNat, ∃ c1 r1,
        FirstFiring isNA M1 Cov1 M1.nrow b.start b.length c1 r1 msgCovFinite ∧
        isNA (M1.cell r1 c1) = false ∧ Dbl.le zero (M1.cell r1 c1) = true ∧
        Dbl.gt (M1.cell r1 c1) (Cov1.cell r1 c1) = false ∧
        isNA (Cov1.cell r1 c1) = false ∧ R_FINITE (Cov1.cell r1 c1) = false) := by
  constructor
  · obtain ⟨h1, _, h3, h4, h5⟩ := hvalid r hr c hc
    have hbad : checkCell isNA (M.cell r c) Dbl.ninf = some msgMGtCov := by
      cases hm : M.cell r c <;> cases hc2 : Cov.cell r c <;>
        simp_all [checkCell, Dbl.le, Dbl.lt, Dbl.gt, R_FINITE, zero]
    have h := check_M_and_Cov_injected END_RCPP isNA parallelize M Cov n r c (M.cell r c)
      Dbl.ninf msgMGtCov hrow hcol hn hvalid hr hc hsplit hbad
    rw [inject_self] at h
    rw [h]
    exact ⟨rfl, by decide⟩
  · intro M1 Cov1 n1 hrow1 hcol1 hn1 hres
    rw [check_M_and_Cov_scan END_RCPP isNA parallelize M1 Cov1 n1 hrow1 hcol1 hn1] at hres
    obtain ⟨b, hb, hw⟩ := scan_eq_some_of_worker (Outcome.value.inj hres)
    obtain ⟨c1, r1, hfirst⟩ := worker_eq_some_iff.mp hw
    have hcell := checkCell_eq_msgCovFinite hnan hfirst.2.2.2.1
    exact ⟨b, hb, c1, r1, hfirst, hcell⟩

/-- C15 at the valid 2 x 3 pair: `Cov[0,1]` set to `-Infinity` with
`M[0,1] = 0`, three workers. -/
theorem check_M_and_Cov_Cov_neg_infinite_witness :
    check_M_and_Cov Rcpp_END_RCPP Dbl.isNaN evenSplit (SEXP.matrix exM)
        (SEXP.matrix (exCov.inject 0 1 Dbl.ninf)) (SEXP.integer [3]) =
      Outcome.value (some
        "All values of 'M' must be less than or equal to the corresponding value of 'Cov'.") :=
  (check_M_and_Cov_Cov_neg_infinite Rcpp_END_RCPP Dbl.isNaN evenSplit exM exCov 3 0 1
    (fun _ h => h) rfl rfl (by decide) (by decide) (by decide) (by decide) (by decide)
    rfl).1.1

/-! ## C16: the indices of the scan -/

theorem rowsAccesses_snd (isNA : Dbl → Bool) (M_ptr Cov_ptr : Nat → Dbl) (rows : List Nat) :
    (rowsAccesses isNA M_ptr Cov_ptr rows).2 =
      rows.findSome? fun r => checkCell isNA (M_ptr r) (Cov_ptr r) := by
  induction rows with
  | nil => rfl
  | cons r rs ih =>
    rw [rowsAccesses, List.findSome?_cons]
    cases checkCell isNA (M_ptr r) (Cov_ptr r) with
    | some msg => rfl
    | none => exact ih

theorem columnsAccesses_snd (isNA : Dbl → Bool) (M Cov : NumericMatrix) (nrow tid : Nat)
    (cols : List Nat) :
    (columnsAccesses isNA M Cov nrow tid cols).2 =
      cols.findSome? fun c =>
        scanColumn isNA nrow (fun r => M.cell r c) (fun r => Cov.cell r c) := by
  induction cols with
  | nil => rfl
  | cons c cs ih =>
    rw [columnsAccesses, List.findSome?_cons]
    have h := rowsAccesses_snd isNA (fun r => M.cell r c) (fun r => Cov.cell r c)
      (List.range nrow)
    unfold scanColumn
    rw [← h]
    rcases hrow : rowsAccesses isNA (fun r => M.cell r c) (fun r => Cov.cell r c)
      (List.range nrow) with ⟨acc, res⟩
    cases res with
    | some msg => rfl
    | none => exact ih

/-- The message found by the scan with its accesses written down is the one
of `worker`. -/
theorem workerAccesses_snd (isNA : Dbl → Bool) (M Cov : NumericMatrix) (nrow : Nat)
    (b : Block) :
    (workerAccesses isNA M Cov nrow b).2 = worker isNA M Cov nrow b.start b.length :=
  columnsAccesses_snd isNA M Cov nrow b.tid _

theorem rowsAccesses_mem {isNA : Dbl → Bool} {M_ptr Cov_ptr : Nat → Dbl} {rows : List Nat}
    {a : Access} (h : a ∈ (rowsAccesses isNA M_ptr Cov_ptr rows).1) :
    ∃ r ∈ rows, a = Access.read false r ∨ a = Access.read true r := by
  induction rows with
  | nil => exact absurd h (List.not_mem_nil a)
  | cons r rs ih =>
    rw [rowsAccesses] at h
    cases hc : checkCell isNA (M_ptr r) (Cov_ptr r) with
    | some msg =>
      rw [hc] at h
      simp only [List.mem_cons, List.mem_singleton, List.not_mem_nil, or_false] at h
      exact ⟨r, List.mem_cons_self r rs, h⟩
    | none =>
      rw [hc] at h
      simp only [List.mem_cons] at h
      rcases h with h | h | h
      · exact ⟨r, List.mem_cons_self r rs, Or.inl h⟩
      · exact ⟨r, List.mem_cons_self r rs, Or.inr h⟩
      · obtain ⟨r1, h1, h2⟩ := ih h
        exact ⟨r1, List.mem_cons_of_mem r h1, h2⟩

theorem columnsAccesses_mem {isNA : Dbl → Bool} {M Cov : NumericMatrix} {nrow tid : Nat}
    {cols : List Nat} {a : Access} (h : a ∈ (columnsAccesses isNA M Cov nrow tid cols).1) :
    (∃ c ∈ cols, a = Access.fetch false c ∨ a = Access.fetch true c) ∨
      (∃ r, r < nrow ∧ (a = Access.read false r ∨ a = Access.read true r)) ∨
      a = Access.write tid := by
  induction cols with
  | nil => exact absurd h (List.not_mem_nil a)
  | cons c cs ih =>
    rw [columnsAccesses] at h
    have hrows : ∀ acc res, rowsAccesses isNA (fun r => M.cell r c) (fun r => Cov.cell r c)
        (List.range nrow) = (acc, res) → a ∈ acc →
        ∃ r, r < nrow ∧ (a = Access.read false r ∨ a = Access.read true r) := by
      intro acc res heq hmem
      have hmem2 : a ∈ (rowsAccesses isNA (fun r => M.cell r c) (fun r => Cov.cell r c)
          (List.range nrow)).1 := by rw [heq]; exact hmem
      obtain ⟨r, h1, h2⟩ := rowsAccesses_mem hmem2
      exact ⟨r, List.mem_range.mp h1, h2⟩
    rcases hrow : rowsAccesses isNA (fun r => M.cell r c) (fun r => Cov.cell r c)
      (List.range nrow) with ⟨acc, res⟩
    rw [hrow] at h
    cases res with
    | some msg =>
      simp only [List.mem_cons, List.mem_append, List.mem_singleton, List.not_mem_nil,
        or_false] at h
      rcases h with h | h | h | h
      · exact Or.inl ⟨c, List.mem_cons_self c cs, Or.inl h⟩
      · exact Or.inl ⟨c, List.mem_cons_self c cs, Or.inr h⟩
      · exact Or.inr (Or.inl (hrows acc _ hrow h))
      · exact Or.inr (Or.inr h)
    | none =>
      simp only [List.mem_cons, List.mem_append] at h
      rcases h with h | h | h | h
      · exact Or.inl ⟨c, List.mem_cons_self c cs, Or.inl h⟩
      · exact Or.inl ⟨c, List.mem_cons_self c cs, Or.inr h⟩
      · exact Or.inr (Or.inl (hrows acc _ hrow h))
      · rcases ih h with ⟨c1, h1, h2⟩ | h1
        · exact Or.inl ⟨c1, List.mem_cons_of_mem c h1, h2⟩
        · exact Or.inr h1

/-- C16: the scan is reached exactly when both handles are matrices with
`M.nrow = Cov.nrow` and `M.ncol = Cov.ncol` and the worker count is a single
positive integer; then, for blocks with `start + length <= ncol` and worker
indices below the worker count, every row read from a column of `M` or of
`Cov` is below the number of rows of both matrices, every column fetched is
below the number of columns of both, and every assignment `errors[tid]` is
inside the vector of slots. -/
theorem check_M_and_Cov_index_safety (isNA : Dbl → Bool)
    (parallelize : Nat → Nat → List Block) (M Cov nt : SEXP) :
    (∀ acc, check_M_and_Cov_accesses isNA parallelize M Cov nt = some acc →
      ∃ (m c : NumericMatrix) (n : Int), M = SEXP.matrix m ∧ Cov = SEXP.matrix c ∧
        nt = SEXP.integer [n] ∧ 0 < n ∧ m.nrow = c.nrow ∧ m.ncol = c.ncol ∧
        (Within (parallelize m.ncol n.toNat) m.ncol →
          SlotsIn (parallelize m.ncol n.toNat) n.toNat →
          ∀ a ∈ acc, a.inBounds m.nrow m.ncol c.nrow c.ncol n.toNat ∧
            a.inBounds c.nrow c.ncol m.nrow m.ncol n.toNat)) ∧
    (∀ (m c : NumericMatrix) (n : Int), M = SEXP.matrix m → Cov = SEXP.matrix c →
      nt = SEXP.integer [n] → 0 < n → m.nrow = c.nrow → m.ncol = c.ncol →
      ∃ acc, check_M_and_Cov_accesses isNA parallelize M Cov nt = some acc) := by
  constructor
  · intro acc h
    unfold check_M_and_Cov_accesses at h
    cases M with
    | integer v => simp [BoundNumericPointer] at h
    | other => simp [BoundNumericPointer] at h
    | matrix m =>
      cases Cov with
      | integer v => simp [BoundNumericPointer] at h
      | other => simp [BoundNumericPointer] at h
      | matrix c =>
        simp only [BoundNumericPointer] at h
        split_ifs at h with h1 h2
        cases nt with
        | matrix x => simp [IntegerVector] at h
        | other => simp [IntegerVector] at h
        | integer v =>
          simp only [IntegerVector] at h
          split_ifs at h with h3
          have hrow : m.nrow = c.nrow := by simpa using h1
          have hcol : m.ncol = c.ncol := by simpa using h2
          have hv : v.length = 1 ∧ 0 < v.headD 0 := by
            constructor
            · by_contra hne
              exact h3 (Or.inl hne)
            · by_contra hle
              exact h3 (Or.inr (by omega))
          obtain ⟨n, hvn⟩ : ∃ n, v = [n] := List.length_eq_one.mp hv.1
          subst hvn
          refine ⟨m, c, n, rfl, rfl, rfl, hv.2, hrow, hcol, ?_⟩
          intro hin hslot a ha
          rw [← Option.some.inj h] at ha
          obtain ⟨b, hb, hab⟩ := List.mem_flatMap.mp ha
          have hend := hin b hb
          have htid := hslot b hb
          rcases columnsAccesses_mem hab with ⟨c1, h4, h5⟩ | ⟨r, h4, h5⟩ | h4
          · have hc1 := (List.mem_range'_1.mp h4).2
            rcases h5 with h5 | h5 <;> subst h5 <;>
              exact ⟨by simp only [Access.inBounds]; omega, by simp only [Access.inBounds]; omega⟩
          · rcases h5 with h5 | h5 <;> subst h5 <;>
              exact ⟨by simp only [Access.inBounds]; omega, by simp only [Access.inBounds]; omega⟩
          · subst h4
            exact ⟨htid, htid⟩
  · intro m c n hM hCov hnt hn hrow hcol
    subst hM hCov hnt
    have hn2 : ¬ n ≤ 0 := by omega
    simp [check_M_and_Cov_accesses, BoundNumericPointer, IntegerVector, hrow, hcol, hn2]

/-- C16 on the 2 x 3 example with three violations and three workers: the
scan is reached and every access it makes is in bounds. -/
theorem check_M_and_Cov_index_safety_witness :
    ∃ acc, check_M_and_Cov_accesses Dbl.isNaN evenSplit (SEXP.matrix exBadM)
        (SEXP.matrix exCov) (SEXP.integer [3]) = some acc ∧
      ∀ a ∈ acc, a.inBounds 2 3 2 3 3 := by
  obtain ⟨acc, hacc⟩ := (check_M_and_Cov_index_safety Dbl.isNaN evenSplit (SEXP.matrix exBadM)
    (SEXP.matrix exCov) (SEXP.integer [3])).2 exBadM exCov 3 rfl rfl rfl (by decide) rfl rfl
  obtain ⟨m, c, n, hm, hc, hn, _, _, _, hsafe⟩ :=
    (check_M_and_Cov_index_safety Dbl.isNaN evenSplit (SEXP.matrix exBadM)
      (SEXP.matrix exCov) (SEXP.integer [3])).1 acc hacc
  cases hm
  cases hc
  cases hn
  exact ⟨acc, hacc, fun a ha => (hsafe (by decide) (by decide) a ha).1⟩

/-! ## The order of the calls -/

/-- When each call has a worker index of its own, the vector of messages does
not depend on the order in which the calls run: running them one after the
other, in any order, gives the result of the parallel phase. -/
theorem runWorkers_perm {isNA : Dbl → Bool} {M Cov : NumericMatrix} {nrow : Nat}
    {blocks1 blocks2 : List Block} (hperm : blocks1.Perm blocks2)
    (hown : (blocks1.map Block.tid).Nodup) (errs : List String) :
    runWorkers isNA M Cov nrow blocks1 errs = runWorkers isNA M Cov nrow blocks2 errs := by
  unfold runWorkers
  apply List.Perm.foldl_eq' hperm
  intro x hx y hy z
  by_cases hxy : x = y
  · rw [hxy]
  · have htid : x.tid ≠ y.tid := fun h => hxy (List.inj_on_of_nodup_map hown hx hy h)
    unfold runBlock
    cases worker isNA M Cov nrow x.start x.length <;>
      cases worker isNA M Cov nrow y.start y.length <;> simp only
    exact List.set_comm _ _ z htid

end BSseq
